import Mathlib

/-!
Verification development for the statement-ingestion pipeline of the
Future-Finance FastAPI repository (src/pdf/pdf_statement_processor.py and
src/pdf/pdf_pipeline/tokenization.py).

The Python code is shallowly embedded: `Decimal` values are rationals,
`datetime.date` is a record of year/month/day, dict-based rows and
transactions are structures whose fields carry `Option` for nullable
values, and the regular expressions of the source are embedded through a
small executable backtracking engine mirroring Python `re` semantics
(alternation order, greedy/lazy repetition, word boundaries, leftmost
search, non-overlapping substitution).
-/

namespace FFPdf

/-! ## Python-style character and string helpers -/

/-- Python whitespace for str.strip() and the regex class backslash-s
(ASCII part): space, tab, newline, carriage return, vertical tab, form feed. -/
def pyIsSpace (c : Char) : Bool :=
  c = ' ' || c = '\t' || c = '\n' || c = '\r' || c = '\x0b' || c = '\x0c'

/-- Python word character (ASCII part of backslash-w): letters, digits, underscore. -/
def isWordChar (c : Char) : Bool :=
  c.isAlpha || c.isDigit || c = '_'

/-- ASCII lower-casing of one character, as Python str.lower() acts on ASCII. -/
def pyToLowerChar (c : Char) : Char :=
  if 'A' ≤ c ∧ c ≤ 'Z' then Char.ofNat (c.toNat + 32) else c

/-- Python str.lower() restricted to ASCII case mapping. -/
def pyLower (s : String) : String :=
  String.mk (s.data.map pyToLowerChar)

def dropWhileList (p : Char → Bool) : List Char → List Char
  | [] => []
  | c :: cs => if p c then dropWhileList p cs else c :: cs

/-- Python str.strip() (no argument): strip whitespace at both ends. -/
def pyStrip (s : String) : String :=
  String.mk (((dropWhileList pyIsSpace s.data.reverse).reverse |> dropWhileList pyIsSpace))

/-- Python str.strip(chars): strip any of the given characters at both ends. -/
def pyStripChars (chars : List Char) (s : String) : String :=
  let p := fun c => chars.contains c
  String.mk (((dropWhileList p s.data.reverse).reverse |> dropWhileList p))

/-- Collapse every maximal run of whitespace into a single space, as
re.sub(backslash-s+, one space, t) does. -/
def collapseWsAux : List Char → List Char
  | [] => []
  | c :: cs =>
    if pyIsSpace c then ' ' :: collapseWsAux (dropWhileList pyIsSpace cs)
    else c :: collapseWsAux cs
termination_by l => l.length
decreasing_by
  · simp only [List.length_cons]
    have h : (dropWhileList pyIsSpace cs).length ≤ cs.length := by
      induction cs with
      | nil => simp [dropWhileList]
      | cons d ds ih =>
        simp only [dropWhileList]
        split
        · exact Nat.le_trans ih (Nat.le_succ _)
        · exact Nat.le_refl _
    omega
  · simp

/-- re.sub of one-or-more-whitespace by a single space. -/
def collapseWs (s : String) : String :=
  String.mk (collapseWsAux s.data)

/-- Whether sub occurs as a contiguous substring (the Python `in` operator). -/
def containsSub (hay sub : String) : Bool :=
  decide (sub.data <:+: hay.data)

/-- All characters of the string satisfy p. -/
def allChars (p : Char → Bool) (s : String) : Bool :=
  s.data.all p

/-- Python str.splitlines restricted to the line breaks occurring in this
pipeline's text: newline, carriage return, and carriage return + newline. -/
def splitLinesAux (cur : List Char) : List Char → List (List Char)
  | [] => [cur.reverse]
  | '\n' :: cs => cur.reverse :: splitLinesAux [] cs
  | '\r' :: '\n' :: cs => cur.reverse :: splitLinesAux [] cs
  | '\r' :: cs => cur.reverse :: splitLinesAux [] cs
  | c :: cs => splitLinesAux (c :: cur) cs

/-- Python str.splitlines: no trailing empty line when the text ends with a break. -/
def pySplitLines (s : String) : List String :=
  match s.data with
  | [] => []
  | cs =>
    let parts := splitLinesAux [] cs
    let parts := if parts.getLast? = some [] ∧ cs ≠ [] ∧
        (cs.getLast? = some '\n' ∨ cs.getLast? = some '\r') then parts.dropLast else parts
    parts.map String.mk

/-! ## A small backtracking regex engine with Python re semantics

Alternation is ordered, repetition is greedy unless flagged lazy, search is
leftmost, substitution is non-overlapping left-to-right.  Capturing groups
record (index, start, stop) with the most recent capture first, as Python
reports the last repetition of a group. -/

inductive RE where
  | eps
  | cls (f : Char → Bool)
  | seq (a b : RE)
  | alt (a b : RE)
  | rep (a : RE) (lo : Nat) (hi : Option Nat) (lz : Bool)
  | grp (i : Nat) (a : RE)
  | wb
  | bol
  | eol

def Caps := List (Nat × Nat × Nat)

def isWordBoundaryAt (s : Array Char) (i : Nat) : Bool :=
  let left := decide (0 < i) && isWordChar (s.getD (i - 1) ' ')
  let right := decide (i < s.size) && isWordChar (s.getD i ' ')
  left ≠ right

/-- One step of the backtracking matcher, in continuation-passing style.
The fuel bounds recursion depth only; it is chosen generously by reFuel. -/
def reMatch (s : Array Char) :
    Nat → RE → Nat → Caps → (Nat → Caps → Option (Nat × Caps)) → Option (Nat × Caps)
  | 0, _, _, _, _ => none
  | fuel + 1, r, i, caps, k =>
    match r with
    | .eps => k i caps
    | .cls f =>
      if i < s.size && f (s.getD i ' ') then k (i + 1) caps else none
    | .seq a b =>
      reMatch s fuel a i caps (fun j c => reMatch s fuel b j c k)
    | .alt a b =>
      (reMatch s fuel a i caps k).orElse (fun _ => reMatch s fuel b i caps k)
    | .grp n a =>
      reMatch s fuel a i caps (fun j c => k j ((n, i, j) :: c))
    | .wb => if isWordBoundaryAt s i then k i caps else none
    | .bol => if i = 0 then k i caps else none
    | .eol =>
      if i = s.size ∨ (i + 1 = s.size ∧ s.getD i ' ' = '\n') then k i caps else none
    | .rep a lo hi lz =>
      if lo > 0 then
        reMatch s fuel a i caps
          (fun j c => reMatch s fuel (.rep a (lo - 1) (hi.map (· - 1)) lz) j c k)
      else
        match hi with
        | some 0 => k i caps
        | _ =>
          let more := fun (_ : Unit) =>
            reMatch s fuel a i caps (fun j c =>
              if j = i then none
              else reMatch s fuel (.rep a 0 (hi.map (· - 1)) lz) j c k)
          if lz then (k i caps).orElse more else (more ()).orElse (fun _ => k i caps)

def reSize : RE → Nat
  | .eps | .cls _ | .wb | .bol | .eol => 1
  | .seq a b | .alt a b => reSize a + reSize b + 1
  | .rep a _ _ _ => reSize a + 1
  | .grp _ a => reSize a + 1

def reFuel (r : RE) (n : Nat) : Nat :=
  (n + 2) * (reSize r + 4) * 6 + 1000

structure RMatch where
  mstart : Nat
  mend : Nat
  caps : Caps

def reMatchAt (r : RE) (s : Array Char) (i : Nat) : Option RMatch :=
  match reMatch s (reFuel r s.size) r i [] (fun j c => some (j, c)) with
  | some (j, c) => some ⟨i, j, c⟩
  | none => none

/-- Leftmost search, like re.search: try match at each start position. -/
def reSearchAux (r : RE) (s : Array Char) : Nat → Nat → Option RMatch
  | 0, _ => none
  | fuel + 1, i =>
    match reMatchAt r s i with
    | some m => some m
    | none => if i < s.size then reSearchAux r s fuel (i + 1) else none

def reSearchFrom (r : RE) (s : Array Char) (start : Nat) : Option RMatch :=
  reSearchAux r s (s.size + 1 - start) start

def strToArr (s : String) : Array Char := s.data.toArray

def reSearch (r : RE) (s : String) : Option RMatch :=
  reSearchFrom r (strToArr s) 0

def arrSlice (s : Array Char) (a b : Nat) : String :=
  String.mk ((s.toList.drop a).take (b - a))

def capLookup (caps : Caps) (n : Nat) : Option (Nat × Nat) :=
  match caps with
  | [] => none
  | (m, a, b) :: rest => if m = n then some (a, b) else capLookup rest n

/-- m.group(n): none when the group did not participate in the match. -/
def groupStr (s : Array Char) (m : RMatch) (n : Nat) : Option String :=
  if n = 0 then some (arrSlice s m.mstart m.mend)
  else (capLookup m.caps n).map (fun p => arrSlice s p.1 p.2)

/-- re.sub with a functional replacement, non-overlapping left-to-right;
an empty match is replaced and the following character is copied. -/
def reSubLoop (r : RE) (s : Array Char) (f : RMatch → String) :
    Nat → Nat → String → String
  | 0, pos, acc => acc ++ arrSlice s pos s.size
  | fuel + 1, pos, acc =>
    match reSearchFrom r s pos with
    | none => acc ++ arrSlice s pos s.size
    | some m =>
      let acc2 := acc ++ arrSlice s pos m.mstart ++ f m
      if m.mend = m.mstart then
        if m.mend < s.size then
          reSubLoop r s f fuel (m.mend + 1) (acc2.push (s.getD m.mend ' '))
        else acc2
      else reSubLoop r s f fuel m.mend acc2

def reSub (r : RE) (f : RMatch → String) (s : String) : String :=
  let a := strToArr s
  reSubLoop r a f (a.size + 1) 0 ""

/-- re.findall collecting the text of the given group (0 = whole match). -/
def reFindAllLoop (r : RE) (s : Array Char) (g : Nat) :
    Nat → Nat → List String → List String
  | 0, _, acc => acc.reverse
  | fuel + 1, pos, acc =>
    match reSearchFrom r s pos with
    | none => acc.reverse
    | some m =>
      let item := (groupStr s m g).getD ""
      if m.mend = m.mstart then
        if m.mend < s.size then reFindAllLoop r s g fuel (m.mend + 1) (item :: acc)
        else (item :: acc).reverse
      else reFindAllLoop r s g fuel m.mend (item :: acc)

def reFindAll (r : RE) (g : Nat) (s : String) : List String :=
  let a := strToArr s
  reFindAllLoop r a g (a.size + 1) 0 []

/-! ### Pattern constructors -/

def rcat (l : List RE) : RE := l.foldr RE.seq RE.eps

def raltL : List RE → RE
  | [] => .cls (fun _ => false)
  | [r] => r
  | r :: rs => .alt r (raltL rs)

/-- Case-sensitive literal. -/
def rlit (str : String) : RE := rcat (str.data.map (fun c => RE.cls (· = c)))

/-- Case-insensitive literal (IGNORECASE). -/
def rliti (str : String) : RE :=
  rcat (str.data.map (fun c => RE.cls (fun d => pyToLowerChar d = pyToLowerChar c)))

def rchars (cs : String) : RE := .cls (fun c => cs.data.contains c)

def rdigit : RE := .cls Char.isDigit

def rstar (r : RE) : RE := .rep r 0 none false

def rplus (r : RE) : RE := .rep r 1 none false

def ropt (r : RE) : RE := .rep r 0 (some 1) false

def rrep (r : RE) (lo hi : Nat) : RE := .rep r lo (some hi) false

def rws : RE := .cls pyIsSpace

def rdot : RE := .cls (fun c => c ≠ '\n')

/-! ## Dates (datetime.date) -/

/-- datetime.date: a validated Gregorian date. -/
structure PDate where
  year : Nat
  month : Nat
  day : Nat
deriving DecidableEq, Repr

def isLeapYear (y : Nat) : Bool :=
  (y % 4 = 0 && y % 100 ≠ 0) || y % 400 = 0

def daysInMonth (y m : Nat) : Nat :=
  if m = 2 then (if isLeapYear y then 29 else 28)
  else if m = 4 ∨ m = 6 ∨ m = 9 ∨ m = 11 then 30
  else 31

/-- datetime.date(y, m, d) construction: validity check performed by the
datetime constructor (raises on an out-of-range component). -/
def mkPDate (y m d : Nat) : Option PDate :=
  if 1 ≤ y ∧ y ≤ 9999 ∧ 1 ≤ m ∧ m ≤ 12 ∧ 1 ≤ d ∧ d ≤ daysInMonth y m then
    some ⟨y, m, d⟩
  else none

def padNat (width n : Nat) : String :=
  let s := toString n
  String.mk (List.replicate (width - s.length) '0') ++ s

/-- date.isoformat(): YYYY-MM-DD. -/
def isoformat (d : PDate) : String :=
  padNat 4 d.year ++ "-" ++ padNat 2 d.month ++ "-" ++ padNat 2 d.day

/-! ## Module-level token regexes (AMOUNT_TOKEN_RE_STR / DATE_TOKEN_RE_STR / LINE_RE) -/

/-- AMOUNT_TOKEN_RE_STR: grouped amount with optional parentheses/sign and
thousands separators, or a plain integer amount with optional two decimals. -/
def amountTokenRE : RE :=
  .alt
    (rcat [ropt (rlit "("), ropt (rlit "-"), rrep rdigit 1 3,
           rstar (rcat [.cls (fun c => c = ',' || pyIsSpace c), rrep rdigit 3 3]),
           ropt (rcat [rlit ".", rrep rdigit 2 2]), ropt (rlit ")")])
    (rcat [ropt (rlit "("), ropt (rlit "-"), rplus rdigit,
           ropt (rcat [rlit ".", rrep rdigit 2 2]), ropt (rlit ")")])

def monthAbbrevs : List String :=
  ["jan", "feb", "mar", "apr", "may", "jun", "jul", "aug", "sep", "oct", "nov", "dec"]

def asciiAlphaCls : RE := .cls (fun c => ('a' ≤ c ∧ c ≤ 'z') ∨ ('A' ≤ c ∧ c ≤ 'Z'))

/-- DATE_TOKEN_RE_STR (compiled with IGNORECASE): numeric d/m/y or y/m/d
forms, or a month-name form, between word boundaries. -/
def dateTokenRE : RE :=
  rcat [.wb,
    raltL
      [rcat [rrep rdigit 1 2, rchars "-/", rrep rdigit 1 2, rchars "-/", rrep rdigit 2 4],
       rcat [rrep rdigit 4 4, rchars "-/", rrep rdigit 1 2, rchars "-/", rrep rdigit 1 2],
       rcat [.wb, raltL (monthAbbrevs.map rliti), rstar asciiAlphaCls, rplus rws,
             rrep rdigit 1 2, ropt (rlit ","), rplus rws, rrep rdigit 2 4]],
    .wb]

/-- LINE_RE: date token, a lazy gap of 1..80 characters, an amount token,
and an optional whitespace-separated balance token.
Group 1 = date, group 2 = amount, group 3 = balance. -/
def lineRE : RE :=
  rcat [.grp 1 dateTokenRE, .rep rdot 1 (some 80) true, .grp 2 amountTokenRE,
        ropt (rcat [rplus rws, .grp 3 amountTokenRE])]

/-! ## strptime-style date parsing (_parse_date) -/

/-- Consume one or two leading digits as a day (strptime %d: 1..31),
preferring two digits as the directive's regex does. -/
def pTwoDigit (lo hi : Nat) (cs : List Char) : Option (Nat × List Char) :=
  match cs with
  | c1 :: c2 :: rest =>
    if c1.isDigit ∧ c2.isDigit then
      let v := (c1.toNat - 48) * 10 + (c2.toNat - 48)
      if lo ≤ v ∧ v ≤ hi then some (v, rest) else
        if lo ≤ c1.toNat - 48 ∧ c1.toNat - 48 ≤ hi ∧ 1 ≤ c1.toNat - 48 then
          some (c1.toNat - 48, c2 :: rest) else none
    else if c1.isDigit ∧ 1 ≤ c1.toNat - 48 ∧ lo ≤ c1.toNat - 48 ∧ c1.toNat - 48 ≤ hi then
      some (c1.toNat - 48, c2 :: rest)
    else none
  | [c1] =>
    if c1.isDigit ∧ 1 ≤ c1.toNat - 48 ∧ lo ≤ c1.toNat - 48 ∧ c1.toNat - 48 ≤ hi then
      some (c1.toNat - 48, [])
    else none
  | [] => none

def pDay := pTwoDigit 1 31
def pMonth := pTwoDigit 1 12

/-- strptime %Y: exactly four digits. -/
def pYear4 (cs : List Char) : Option (Nat × List Char) :=
  match cs with
  | a :: b :: c :: d :: rest =>
    if a.isDigit ∧ b.isDigit ∧ c.isDigit ∧ d.isDigit then
      some ((a.toNat - 48) * 1000 + (b.toNat - 48) * 100 + (c.toNat - 48) * 10 +
        (d.toNat - 48), rest)
    else none
  | _ => none

/-- strptime %y: exactly two digits; 0..68 maps to 2000s, 69..99 to 1900s. -/
def pYear2 (cs : List Char) : Option (Nat × List Char) :=
  match cs with
  | a :: b :: rest =>
    if a.isDigit ∧ b.isDigit then
      let v := (a.toNat - 48) * 10 + (b.toNat - 48)
      some (if v ≤ 68 then 2000 + v else 1900 + v, rest)
    else none
  | _ => none

def pLit (c : Char) (cs : List Char) : Option (List Char) :=
  match cs with
  | d :: rest => if d = c then some rest else none
  | [] => none

/-- strptime treats whitespace in the format as one-or-more whitespace. -/
def pSpaces (cs : List Char) : Option (List Char) :=
  match cs with
  | d :: rest => if pyIsSpace d then some (dropWhileList pyIsSpace rest) else none
  | [] => none

/-- strptime %b: an abbreviated month name, case-insensitively. -/
def pMonthName (cs : List Char) : Option (Nat × List Char) :=
  let low := cs.map pyToLowerChar
  (List.enumFrom 1 monthAbbrevs).findSome? (fun p =>
    if p.2.data.isPrefixOf low then some (p.1, cs.drop p.2.length) else none)

/-- A numeric format d s m s y (the separator char and the year parser vary). -/
def pFmtDSMSY (sep : Char) (yr : List Char → Option (Nat × List Char))
    (cs : List Char) : Option PDate := do
  let (d, cs) ← pDay cs
  let cs ← pLit sep cs
  let (m, cs) ← pMonth cs
  let cs ← pLit sep cs
  let (y, cs) ← yr cs
  if cs.isEmpty then mkPDate y m d else none

def pFmtMSDSY (sep : Char) (yr : List Char → Option (Nat × List Char))
    (cs : List Char) : Option PDate := do
  let (m, cs) ← pMonth cs
  let cs ← pLit sep cs
  let (d, cs) ← pDay cs
  let cs ← pLit sep cs
  let (y, cs) ← yr cs
  if cs.isEmpty then mkPDate y m d else none

def pFmtYSMSD (sep : Char) (yr : List Char → Option (Nat × List Char))
    (cs : List Char) : Option PDate := do
  let (y, cs) ← yr cs
  let cs ← pLit sep cs
  let (m, cs) ← pMonth cs
  let cs ← pLit sep cs
  let (d, cs) ← pDay cs
  if cs.isEmpty then mkPDate y m d else none

/-- "%b %d %Y" and "%b %d, %Y". -/
def pFmtBdY (comma : Bool) (cs : List Char) : Option PDate := do
  let (m, cs) ← pMonthName cs
  let cs ← pSpaces cs
  let (d, cs) ← pDay cs
  let cs ← (if comma then pLit ',' cs else some cs)
  let cs ← pSpaces cs
  let (y, cs) ← pYear4 cs
  if cs.isEmpty then mkPDate y m d else none

/-- "%d %b %Y" and "%d %b, %Y". -/
def pFmtDbY (comma : Bool) (cs : List Char) : Option PDate := do
  let (d, cs) ← pDay cs
  let cs ← pSpaces cs
  let (m, cs) ← pMonthName cs
  let cs ← (if comma then pLit ',' cs else some cs)
  let cs ← pSpaces cs
  let (y, cs) ← pYear4 cs
  if cs.isEmpty then mkPDate y m d else none

/-- The fallback pattern extracting a date token inside a longer string. -/
def dateExtractRE : RE :=
  .alt (rcat [rrep rdigit 4 4, rchars "-/", rrep rdigit 1 2, rchars "-/", rrep rdigit 1 2])
       (rcat [rrep rdigit 1 2, rchars "-/", rrep rdigit 1 2, rchars "-/", rrep rdigit 2 4])

/-- The strptime attempts of _parse_date, in source order: the four month-name
formats first, then the numeric candidates list. -/
def dateFormats : List (List Char → Option PDate) :=
  [pFmtBdY false, pFmtBdY true, pFmtDbY false, pFmtDbY true,
   pFmtDSMSY '/' pYear4, pFmtDSMSY '-' pYear4, pFmtDSMSY '.' pYear4,
   pFmtMSDSY '/' pYear4, pFmtMSDSY '-' pYear4,
   pFmtYSMSD '-' pYear4, pFmtYSMSD '/' pYear4,
   pFmtDSMSY '/' pYear2, pFmtMSDSY '/' pYear2, pFmtYSMSD '-' pYear2]

/-- _parse_date: falsy input gives None; otherwise strptime candidates in
source order, then a regex extraction of a date token retried recursively.
The source recurses without a bound (and would not terminate on a degenerate
token that fails every format yet matches the extraction regex as a whole);
the depth bound makes the embedding total and is never reached on inputs
where the source terminates, since each level strictly shrinks the string. -/
def parseDateCore : Nat → Option String → Option PDate
  | _, none => none
  | depth, some raw =>
    if raw = "" then none else
    let s := pyStrip raw
    match dateFormats.findSome? (fun f => f s.data) with
    | some d => some d
    | none =>
      match depth with
      | 0 => none
      | depth + 1 =>
        match reSearch dateExtractRE s with
        | some m => parseDateCore depth (groupStr (strToArr s) m 0)
        | none => none

def parseDate (sOpt : Option String) : Option PDate := parseDateCore 4 sOpt

/-! ## Decimal amounts (_parse_amount)

Decimal values are embedded as rationals; every amount the pipeline builds is
a finite decimal, which rationals represent exactly. -/

/-- An integer as a rational, built structurally (num/den directly) so that
concrete evaluation does not unfold the numeral instance tower. -/
def qInt (n : ℤ) : ℚ := ⟨n, 1, Nat.one_ne_zero, Nat.coprime_one_right _⟩

/-- A natural number as a rational, structurally. -/
def qNat (n : ℕ) : ℚ := qInt (Int.ofNat n)

/-- The negation of a natural number as a rational, structurally. -/
def qNegNat (n : ℕ) : ℚ := qInt (Int.negOfNat n)

/-- Whether the babel import succeeded in the source module.  The guarded
block never actually calls babel; it only enables the separator heuristics,
which is the configuration the code was written for. -/
def HAVE_BABEL : Bool := true

/-- Python Decimal(string) restricted to the sign/digits/point literals that
can reach it here (letters are stripped by the caller, so no exponent or
special value can occur): optional surrounding whitespace, optional sign, and
digits with at most one point and at least one digit overall. -/
def decimalLit (s : String) : Option ℚ :=
  let cs := pyStrip s |>.data
  let (sgn, cs) :=
    match cs with
    | '+' :: rest => ((1 : ℤ), rest)
    | '-' :: rest => ((-1 : ℤ), rest)
    | _ => ((1 : ℤ), cs)
  let intPart := cs.takeWhile Char.isDigit
  let rest := cs.drop intPart.length
  let digitsVal : List Char → ℕ := fun l =>
    l.foldl (fun acc c => acc * 10 + (c.toNat - 48)) (0 : ℕ)
  match rest with
  | [] =>
    if intPart.isEmpty then none
    else some (mkRat (sgn * Int.ofNat (digitsVal intPart)) 1)
  | '.' :: fracPart =>
    if fracPart.all Char.isDigit ∧ ¬(intPart.isEmpty ∧ fracPart.isEmpty) then
      some (mkRat
        (sgn * Int.ofNat (digitsVal intPart * 10 ^ fracPart.length + digitsVal fracPart))
        (10 ^ fracPart.length))
    else none
  | _ => none

def strRemoveChars (bad : List Char) (s : String) : String :=
  String.mk (s.data.filter (fun c => ¬ bad.contains c))

def strMapChar (from_ to_ : Char) (s : String) : String :=
  String.mk (s.data.map (fun c => if c = from_ then to_ else c))

def strCountChar (c : Char) (s : String) : Nat :=
  s.data.count c

/-- Python str.rfind for a single character: highest index, or -1. -/
def rfindChar (c : Char) (s : String) : Int :=
  match s.data.reverse.indexOf? c with
  | some i => Int.ofNat s.length - 1 - Int.ofNat i
  | none => -1

def leadingMinusRE : RE := .seq (.alt .bol rws) (rlit "-")

def wordDrRE : RE := rcat [.wb, rlit "dr", .wb]

def euStyleRE : RE :=
  rcat [rplus rdigit, rlit ".", rrep rdigit 3 3, rlit ",", rrep rdigit 2 2, .eol]

def usStyleRE : RE :=
  rcat [rplus rdigit, rlit ",", rrep rdigit 3 3, rlit ".", rrep rdigit 2 2, .eol]

def currencyLetterOrSymbol (c : Char) : Bool :=
  ('A' ≤ c ∧ c ≤ 'Z') || ('a' ≤ c ∧ c ≤ 'z') || c = '₦' || c = '$' || c = '€' ||
    c = '£' || c = '₹'

/-- _parse_amount: sign detection (parentheses, leading minus, DR suffix),
currency-symbol stripping, babel-era separator heuristics, and a plain
Decimal fallback.  The currency hint parameter is accepted and ignored, as in
the source. -/
def parseAmount (textOpt : Option String) (_currencyHint : Option String) : Option ℚ :=
  match textOpt with
  | none => none
  | some t =>
    if t = "" then none else
    let s := t
    let isNeg0 := containsSub s "(" && containsSub s ")"
    let isNeg1 := isNeg0 || (reSearch leadingMinusRE s).isSome
    let isNeg := isNeg1 || (reSearch wordDrRE (pyLower s)).isSome
    -- the CR branch of the source computes `is_negative and True or False`,
    -- which leaves is_negative unchanged
    let sWoCcy := String.mk (s.data.filter (fun c => ¬ currencyLetterOrSymbol c))
    let babelValue : Option ℚ :=
      if HAVE_BABEL then
        let cand := String.mk (sWoCcy.data.filter
          (fun c => ¬ (c = '(' ∨ c = ')' ∨ pyIsSpace c)))
        if (reSearch euStyleRE cand).isSome ||
            (containsSub cand "," && containsSub cand "." &&
             rfindChar ',' cand > rfindChar '.' cand) then
          decimalLit (strMapChar ',' '.' (strRemoveChars ['.'] cand))
        else if (reSearch usStyleRE cand).isSome ||
            (containsSub cand "," && containsSub cand "." &&
             rfindChar '.' cand > rfindChar ',' cand) then
          decimalLit (strRemoveChars [','] cand)
        else if strCountChar ',' cand = 1 && ¬ containsSub cand "." then
          decimalLit (strMapChar ',' '.' cand)
        else if strCountChar '.' cand = 1 && ¬ containsSub cand "," then
          decimalLit cand
        else none
      else none
    let value : Option ℚ :=
      match babelValue with
      | some v => some v
      | none =>
        let sClean := pyStrip (strRemoveChars [',', ' ', '(', ')'] sWoCcy)
        if sClean = "" ∨ sClean = "-" ∨ sClean = "." then none
        else decimalLit sClean
    value.map (fun v => if isNeg then 0 - v else v)

/-! ## A stable sort

Python list.sort / sorted are stable; any stable sort agrees with them on a
total preorder, so the embedding uses a stable insertion sort. -/

def sInsert (le : α → α → Bool) (x : α) : List α → List α
  | [] => [x]
  | y :: ys => if le x y then x :: y :: ys else y :: sInsert le x ys

def sSort (le : α → α → Bool) : List α → List α
  | [] => []
  | x :: xs => sInsert le x (sSort le xs)

/-! ## pdf_pipeline/tokenization.py -/

/-- A positioned word token (the keys of a pdfplumber word dict that the
tokenization code reads: x0, x1, top, text). Floats are embedded as
rationals. -/
structure Token where
  x0 : ℚ
  x1 : ℚ
  top : ℚ
  text : String
deriving DecidableEq, Repr

/-- A reconstructed row of tokens: the representative baseline y (the first
token's top) and the tokens in insertion order. -/
structure TRow where
  y : ℚ
  tokens : List Token
deriving DecidableEq, Repr

def tokenSortLE (a b : Token) : Bool :=
  a.top < b.top || (a.top = b.top && a.x0 ≤ b.x0)

def wordsToRowsStep (yTol : ℚ) (rows : List TRow) (w : Token) : List TRow :=
  match rows.getLast? with
  | some lastRow =>
    if |lastRow.y - w.top| > yTol then rows ++ [⟨w.top, [w]⟩]
    else rows.dropLast ++ [⟨lastRow.y, lastRow.tokens ++ [w]⟩]
  | none => [⟨w.top, [w]⟩]

/-- words_to_rows: sort words by (top, x0) and group by baseline proximity;
the row keeps the first token's top as its representative baseline. -/
def wordsToRows (words : List Token) (yTol : ℚ := (5 : ℚ) / 2) : List TRow :=
  if words.isEmpty then []
  else (sSort tokenSortLE words).foldl (wordsToRowsStep yTol) []

def midOf (t : Token) : ℚ := (t.x0 + t.x1) / 2

/-- Group the sorted midpoints into clusters, starting a new cluster at every
gap of at least 15 points between consecutive midpoints (the split-indices
slicing of the source produces exactly these consecutive-gap groups). -/
def clustersOf (mids : List ℚ) : List (List ℚ) :=
  let step := fun (acc : List (List ℚ) × List ℚ) (m : ℚ) =>
    match acc.2.getLast? with
    | none => (acc.1, [m])
    | some prev =>
      if m - prev ≥ 15 then (acc.1 ++ [acc.2], [m]) else (acc.1, acc.2 ++ [m])
  let r := mids.foldl step ([], [])
  if r.2.isEmpty then r.1 else r.1 ++ [r.2]

def listMin (h : ℚ) (t : List ℚ) : ℚ := t.foldl min h

def listMax (h : ℚ) (t : List ℚ) : ℚ := t.foldl max h

def bandStep (bands : List (ℚ × ℚ)) (c : List ℚ) : List (ℚ × ℚ) :=
  match c with
  | [] => bands
  | h :: t =>
    let xmin := listMin h t - 10
    let xmax := listMax h t + 10
    match bands.getLast? with
    | none => [(xmin, xmax)]
    | some prev =>
      if xmin > prev.2 then bands ++ [(xmin, xmax)]
      else bands.dropLast ++ [(prev.1, max prev.2 xmax)]

/-- infer_column_bands: cluster header-token x-midpoints on gaps of 15pt or
more, cap the cluster count, widen each cluster by 10pt on each side and
merge overlapping bands. -/
def inferColumnBands (headerTokens : List Token) (maxCols : Nat := 10) :
    List (ℚ × ℚ) :=
  let mids := sSort (fun a b => a ≤ b) (headerTokens.map midOf)
  if mids.isEmpty then []
  else ((clustersOf mids).take maxCols).foldl bandStep []

def firstBandIdx (bands : List (ℚ × ℚ)) (mid : ℚ) : Option Nat :=
  bands.findIdx? (fun b => b.1 ≤ mid ∧ mid ≤ b.2)

def assignStep (bands : List (ℚ × ℚ)) (cols : List (List Token)) (t : Token) :
    List (List Token) :=
  match firstBandIdx bands (midOf t) with
  | some i => cols.set i ((cols.getD i []) ++ [t])
  | none => cols

/-- assign_tokens_to_columns: each token goes to the first band whose range
contains its x-midpoint, or nowhere. -/
def assignTokensToColumns (tokens : List Token) (bands : List (ℚ × ℚ)) :
    List (List Token) :=
  tokens.foldl (assignStep bands) (bands.map (fun _ => []))

/-! ## Header canonicalization and cell heuristics -/

/-- The synonym dictionary of _standardize_header_token, in source order. -/
def headerSynonyms : List (String × String) :=
  [("date", "date"), ("value date", "date"), ("transaction date", "date"),
   ("posting date", "date"),
   ("description", "description"), ("details", "description"),
   ("narration", "description"), ("particulars", "description"),
   ("remarks", "description"),
   ("debit", "debit"), ("withdrawal", "debit"), ("dr", "debit"),
   ("credit", "credit"), ("deposit", "credit"), ("cr", "credit"),
   ("amount", "amount"), ("transaction amount", "amount"),
   ("balance", "balance"), ("running balance", "balance"),
   ("available balance", "balance"),
   ("currency", "currency")]

def drPartialRE : RE :=
  .alt (rcat [.wb, rlit "dr", .wb]) (.alt (rlit "debit") (rlit "withdraw"))

def crPartialRE : RE :=
  .alt (rcat [.wb, rlit "cr", .wb]) (.alt (rlit "credit") (rlit "deposit"))

/-- _standardize_header_token: strip/lower/collapse whitespace, exact synonym
lookup, then partial matches in source order. -/
def standardizeHeaderToken (token : Option String) : Option String :=
  match token with
  | none => none
  | some tok =>
    let t := collapseWs (pyLower (pyStrip tok))
    match headerSynonyms.lookup t with
    | some canonical => some canonical
    | none =>
      if containsSub t "date" then some "date"
      else if containsSub t "narration" || containsSub t "details" ||
          containsSub t "descr" then some "description"
      else if (reSearch drPartialRE t).isSome then some "debit"
      else if (reSearch crPartialRE t).isSome then some "credit"
      else if containsSub t "amount" then some "amount"
      else if containsSub t "balance" then some "balance"
      else if containsSub t "currency" then some "currency"
      else none

/-- _detect_header_mapping: canonicalize each header cell; require a date
column plus one of amount/debit/credit/description, else no mapping. -/
def detectHeaderMapping (headerRow : List String) : List (Nat × String) :=
  let mapping := headerRow.enum.filterMap
    (fun p => (standardizeHeaderToken (some p.2)).map (fun c => (p.1, c)))
  let values := mapping.map (·.2)
  if values.contains "date" ∧ (values.contains "amount" ∨ values.contains "debit" ∨
      values.contains "credit" ∨ values.contains "description") then mapping
  else []

def looksDateRE1 : RE :=
  rcat [.bol, rrep rdigit 1 2, rchars "-/", rrep rdigit 1 2, rchars "-/",
        rrep rdigit 2 4, .eol]

def looksDateRE2 : RE :=
  rcat [.bol, rrep rdigit 4 4, rchars "-/", rrep rdigit 1 2, rchars "-/",
        rrep rdigit 1 2, .eol]

def looksDateRE3 : RE :=
  rcat [.bol, raltL (monthAbbrevs.map rliti), rstar asciiAlphaCls, rplus rws,
        rrep rdigit 1 2, ropt (rlit ","), rplus rws, rrep rdigit 2 4, .eol]

/-- _looks_like_date on a stripped cell, anchored patterns. -/
def looksLikeDate (text : Option String) : Bool :=
  match text with
  | none => false
  | some raw =>
    if raw = "" then false else
    let s := pyStrip raw
    (reSearch looksDateRE1 s).isSome || (reSearch looksDateRE2 s).isSome ||
      (reSearch looksDateRE3 s).isSome

/-- _looks_like_amount: an unanchored search of the amount token pattern. -/
def looksLikeAmount (text : Option String) : Bool :=
  match text with
  | none => false
  | some raw =>
    if raw = "" then false else (reSearch amountTokenRE raw).isSome

/-! ## Normalized rows (the canonical row dicts of normalize_rows) -/

/-- A canonical row dict as documented and produced by normalize_rows:
date, description, debit/credit/amount/balance as Decimal-or-None, the
currency hint, the producing tier, the page index and per-page sequence. -/
structure NRow where
  date : Option PDate
  description : Option String
  debit : Option ℚ
  credit : Option ℚ
  amount : Option ℚ
  balance : Option ℚ
  currency : Option String
  sourceTier : String
  page_index : Nat
  row_seq : Option Nat
deriving DecidableEq, Repr

def emptyNRow (currencyHint : Option String) (tier : String) (pageIndex seq : Nat) :
    NRow :=
  { date := none, description := none, debit := none, credit := none,
    amount := none, balance := none, currency := currencyHint,
    sourceTier := tier, page_index := pageIndex, row_seq := some seq }

/-- _assign_cell_value. -/
def assignCellValue (row : NRow) (canonicalName : String) (value : String)
    (currencyHint : Option String) : NRow :=
  if canonicalName = "date" then { row with date := parseDate (some value) }
  else if canonicalName = "debit" ∨ canonicalName = "credit" ∨
      canonicalName = "amount" ∨ canonicalName = "balance" then
    match parseAmount (some value) currencyHint with
    | none => row
    | some parsed =>
      if canonicalName = "debit" then { row with debit := some parsed }
      else if canonicalName = "credit" then { row with credit := some parsed }
      else if canonicalName = "amount" then { row with amount := some parsed }
      else { row with balance := some parsed }
  else if canonicalName = "currency" then
    let v := pyStrip value
    { row with currency := if v ≠ "" then some v else row.currency }
  else if canonicalName = "description" then
    let existing := row.description.getD ""
    { row with description := some (pyStrip (existing ++ " " ++ value)) }
  else row

/-- Python truthiness of an optional string (None and "" are falsy). -/
def truthyStr : Option String → Bool
  | none => false
  | some s => s ≠ ""

/-- Python truthiness of an optional Decimal (None and 0 are falsy). -/
def truthyQ : Option ℚ → Bool
  | none => false
  | some q => q ≠ 0

/-! ## Extraction result -/

/-- ExtractionResult.  The metadata dict is heterogeneous; the parts of it a
claim touches (OCR info, metrics) do not affect the transaction data flow and
are kept out of the embedded record. -/
structure ExtractionResult where
  document_id : String
  pages_count : Nat
  page_texts : List String
  page_tables : List (List (List (List String)))
  page_words : List (List Token)
  image_based_pages : List Bool
  first_page_text : String
deriving DecidableEq, Repr

/-! ## normalize_rows: tier A (tables) -/

/-- The shared post-processing: derive a signed amount from debit/credit when
the amount cell itself was absent. -/
def postProcessAmount (row : NRow) : NRow :=
  if row.amount = none then
    match row.debit with
    | some d => { row with amount := some (0 - d) }
    | none =>
      match row.credit with
      | some c => { row with amount := some c }
      | none => row
  else row

/-- Build one table row dict: header-mapped assignment when a header was
detected, else the positional heuristic, then amount post-processing. -/
def tableRowBuild (ch : Option String) (pageIndex seq : Nat)
    (headerMap : List (Nat × String)) (rawRow : List String) : NRow :=
  let base := emptyNRow ch "table" pageIndex seq
  let row :=
    if headerMap.isEmpty then
      rawRow.foldl (fun r value =>
        if looksLikeDate (some value) ∧ r.date = none then
          assignCellValue r "date" value ch
        else if looksLikeAmount (some value) then
          assignCellValue r (if r.amount = none then "amount" else "balance") value ch
        else if r.description = none ∨ r.description = some "" then
          assignCellValue r "description" value ch
        else r) base
    else
      headerMap.foldl (fun r p =>
        if p.1 < rawRow.length then assignCellValue r p.2 (rawRow.getD p.1 "") ch
        else r) base
  postProcessAmount row

/-- Process one table, threading the per-page row-sequence counter, keeping
only rows with a truthy description or amount (the counter advances for every
data row, kept or not). -/
def processTable (ch : Option String) (pageIndex : Nat)
    (acc : List NRow × Nat) (table : List (List String)) : List NRow × Nat :=
  match table with
  | [] => acc
  | headerRow :: restRows =>
    let headerMap := detectHeaderMapping headerRow
    let dataRows := if headerMap.isEmpty then headerRow :: restRows else restRows
    dataRows.foldl (fun a rawRow =>
      let row := tableRowBuild ch pageIndex a.2 headerMap rawRow
      if truthyStr row.description || truthyQ row.amount then (a.1 ++ [row], a.2 + 1)
      else (a.1, a.2 + 1)) acc

/-- Table tier over all pages, with the per-page early-stop check; the Bool
reports an early return. -/
def tierAPages (earlyStop : Nat) (ch : Option String) :
    List (Nat × List (List (List String))) → List NRow → List NRow × Bool
  | [], acc => (acc, false)
  | (pageIndex, tables) :: rest, acc =>
    let acc2 := (tables.foldl (processTable ch pageIndex) (acc, 0)).1
    if earlyStop > 0 ∧ acc2.length ≥ earlyStop then (acc2, true)
    else tierAPages earlyStop ch rest acc2

/-! ## normalize_rows: tier B (token reconstruction) -/

/-- " ".join of cell token texts, stripped. -/
def tokensText (cell : List Token) : String :=
  pyStrip (String.intercalate " " (cell.map (·.text)))

def headerCanonicalSet : List String :=
  ["date", "description", "debit", "credit", "amount", "balance"]

/-- The first of the first eight reconstructed rows having a token whose
canonical header name is one of the six header names. -/
def findHeaderRow (rows : List TRow) : Option TRow :=
  (rows.take 8).find? (fun r =>
    r.tokens.any (fun t =>
      match standardizeHeaderToken (some t.text) with
      | some c => headerCanonicalSet.contains c
      | none => false))

def descColIdx (headerMap : List (Nat × String)) : Option Nat :=
  (headerMap.find? (fun p => p.2 = "description")).map (·.1)

/-- One reconstructed row of the token tier: column assignment, header-mapped
cell assignment, amount post-processing, and the continuation-row merge
heuristic appending to the previous row's description. -/
def tierBRowStep (ch : Option String) (pageIndex : Nat)
    (headerMap : List (Nat × String)) (bands : List (ℚ × ℚ)) (dci : Option Nat)
    (acc : List NRow × Nat) (r : TRow) : List NRow × Nat :=
  if r.tokens.isEmpty then acc
  else
    let colTexts := (assignTokensToColumns r.tokens bands).map tokensText
    if ¬ colTexts.any (fun s => s ≠ "") then acc
    else
      let base := emptyNRow ch "tokens" pageIndex acc.2
      let row := headerMap.foldl (fun rw p =>
        if p.1 < colTexts.length then
          assignCellValue rw p.2 (colTexts.getD p.1 "") ch
        else rw) base
      let row := postProcessAmount row
      let seq2 := acc.2 + 1
      let isNumberPresent := row.amount.isSome || row.debit.isSome ||
        row.credit.isSome || row.balance.isSome
      let hasDate := row.date.isSome
      let mergeable := ¬ isNumberPresent ∧ ¬ hasDate ∧ truthyStr row.description
      let merged :=
        if mergeable then
          match acc.1.getLast? with
          | some prev =>
            match prev.description with
            | some prevDesc =>
              let descPiece :=
                match dci with
                | some i => if i < colTexts.length then colTexts.getD i "" else
                              row.description.getD ""
                | none => row.description.getD ""
              some (acc.1.dropLast ++
                [{ prev with description := some (pyStrip (prevDesc ++ " " ++ descPiece)) }])
            | none => none
          | none => none
        else none
      match merged with
      | some newAcc => (newAcc, seq2)
      | none =>
        if truthyStr row.description || truthyQ row.amount then
          (acc.1 ++ [row], seq2)
        else (acc.1, seq2)

/-- The token tier for one page: reconstruct rows, find a header row, infer
bands, build the header mapping (discarded when it lacks the minimal
columns), then process the rows after the header row. -/
def tierBPage (ch : Option String) (pageIndex : Nat) (words : List Token)
    (acc : List NRow) : List NRow :=
  if words.isEmpty then acc
  else
    let rowsT := wordsToRows words
    if rowsT.isEmpty then acc
    else
      match findHeaderRow rowsT with
      | none => acc
      | some headerRow =>
        let bands := inferColumnBands headerRow.tokens
        if bands.isEmpty then acc
        else
          let headerCellsText := (assignTokensToColumns headerRow.tokens bands).map
            tokensText
          let headerMap0 := headerCellsText.enum.filterMap
            (fun p => (standardizeHeaderToken (some p.2)).map (fun c => (p.1, c)))
          let values := headerMap0.map (·.2)
          let headerMap :=
            if values.contains "date" ∧ (values.contains "amount" ∨
                values.contains "debit" ∨ values.contains "credit" ∨
                values.contains "description") then headerMap0
            else []
          let dci := descColIdx headerMap
          let hIdx := (rowsT.findIdx? (fun r => r = headerRow)).getD 0
          ((rowsT.drop (hIdx + 1)).foldl
            (tierBRowStep ch pageIndex headerMap bands dci) (acc, 0)).1

def tierBPages (earlyStop : Nat) (ch : Option String) :
    List (Nat × List Token) → List NRow → List NRow × Bool
  | [], acc => (acc, false)
  | (pageIndex, words) :: rest, acc =>
    let acc2 := tierBPage ch pageIndex words acc
    if earlyStop > 0 ∧ acc2.length ≥ earlyStop then (acc2, true)
    else tierBPages earlyStop ch rest acc2

/-! ## normalize_rows: tier C (text-line fallback) -/

def wsTwoPlusRE : RE := .rep rws 2 none false

/-- One stripped text line: search LINE_RE, parse the date/amount/optional
balance groups, and strip the matched fragments out of the description. -/
def textLineRow (ch : Option String) (pageIndex seq : Nat) (line : String) :
    Option NRow :=
  match reSearch lineRE line with
  | none => none
  | some m =>
    let arr := strToArr line
    let dateStr := groupStr arr m 1
    let amountStr := groupStr arr m 2
    let balanceStr := groupStr arr m 3
    let parsedDate := parseDate dateStr
    let amount := parseAmount amountStr ch
    let balance := parseAmount (match balanceStr with
      | some b => if b ≠ "" then some b else none
      | none => none) ch
    let d1 := reSub (rliti (dateStr.getD "")) (fun _ => "") line
    let d2 := reSub (rlit (amountStr.getD "")) (fun _ => "") d1
    let d3 := match balanceStr with
      | some b => reSub (rlit b) (fun _ => "") d2
      | none => d2
    let description := pyStripChars [' ', '-', '|', ':']
      (reSub wsTwoPlusRE (fun _ => " ") d3)
    some { date := parsedDate,
           description := if description ≠ "" then some description else none,
           debit := match amount with
             | some a => if a ≥ 0 then none else some (0 - a)
             | none => none,
           credit := match amount with
             | some a => if a > 0 then some a else none
             | none => none,
           amount := amount, balance := balance, currency := ch,
           sourceTier := "text", page_index := pageIndex, row_seq := some seq }

def tierCLines (earlyStop : Nat) (ch : Option String) (pageIndex : Nat) :
    List String → List NRow × Nat → (List NRow × Nat × Bool)
  | [], acc => (acc.1, acc.2, false)
  | rawLine :: rest, acc =>
    let line := pyStrip rawLine
    if line = "" then tierCLines earlyStop ch pageIndex rest acc
    else
      match textLineRow ch pageIndex acc.2 line with
      | none => tierCLines earlyStop ch pageIndex rest acc
      | some row =>
        let acc2 := (acc.1 ++ [row], acc.2 + 1)
        if earlyStop > 0 ∧ acc2.1.length ≥ earlyStop then (acc2.1, acc2.2, true)
        else tierCLines earlyStop ch pageIndex rest acc2

def tierCPages (earlyStop : Nat) (ch : Option String) :
    List (Nat × String) → List NRow → List NRow
  | [], acc => acc
  | (pageIndex, text) :: rest, acc =>
    let r := tierCLines earlyStop ch pageIndex (pySplitLines text) (acc, 0)
    if r.2.2 then r.1 else tierCPages earlyStop ch rest r.1

/-! ## normalize_rows -/

/-- normalize_rows: tables first; token reconstruction only when tables
yielded nothing and positioned words exist; the text-line fallback only when
both yielded nothing.  The early-stop threshold returns the accumulated rows
as soon as it is reached.  The metrics bookkeeping of the source does not
affect the returned rows and is omitted. -/
def normalizeRows (earlyStop : Nat) (ext : ExtractionResult)
    (ch : Option String) : List NRow :=
  let ra := tierAPages earlyStop ch ext.page_tables.enum []
  if ra.2 then ra.1
  else
    let rb :=
      if ra.1.isEmpty ∧ ¬ ext.page_words.isEmpty then
        tierBPages earlyStop ch ext.page_words.enum ra.1
      else (ra.1, false)
    if rb.2 then rb.1
    else if rb.1.isEmpty then tierCPages earlyStop ch ext.page_texts.enum rb.1
    else rb.1

/-! ## SHA-1 (hashlib.sha1), on UTF-8 bytes, with Nat arithmetic mod 2^32 -/

def charUtf8 (c : Char) : List Nat :=
  let n := c.toNat
  if n < 128 then [n]
  else if n < 2048 then [192 ||| (n >>> 6), 128 ||| (n &&& 63)]
  else if n < 65536 then
    [224 ||| (n >>> 12), 128 ||| ((n >>> 6) &&& 63), 128 ||| (n &&& 63)]
  else
    [240 ||| (n >>> 18), 128 ||| ((n >>> 12) &&& 63), 128 ||| ((n >>> 6) &&& 63),
     128 ||| (n &&& 63)]

def utf8Bytes (s : String) : List Nat :=
  (s.data.map charUtf8).flatten

def rotl32 (x n : Nat) : Nat :=
  ((x <<< n) ||| (x >>> (32 - n))) % 4294967296

def sha1Pad (msg : List Nat) : List Nat :=
  let zeros := (119 - msg.length % 64) % 64
  let bitLen := msg.length * 8
  msg ++ [128] ++ List.replicate zeros 0 ++
    ((List.range 8).map (fun i => (bitLen >>> (8 * (7 - i))) &&& 255))

def bytesToWords : List Nat → List Nat
  | a :: b :: c :: d :: rest => (((a * 256 + b) * 256 + c) * 256 + d) :: bytesToWords rest
  | _ => []

def chunks16 : List Nat → List (List Nat)
  | [] => []
  | w :: rest => (w :: rest.take 15) :: chunks16 (rest.drop 15)
termination_by l => l.length
decreasing_by simp [List.length_drop]; omega

def sha1F (t b c d : Nat) : Nat :=
  if t < 20 then (b &&& c) ||| ((b ^^^ 4294967295) &&& d)
  else if t < 40 then b ^^^ c ^^^ d
  else if t < 60 then (b &&& c) ||| (b &&& d) ||| (c &&& d)
  else b ^^^ c ^^^ d

def sha1K (t : Nat) : Nat :=
  if t < 20 then 1518500249
  else if t < 40 then 1859775393
  else if t < 60 then 2400959708
  else 3395469782

def sha1Expand (ws0 : List Nat) : Array Nat :=
  (List.range 64).foldl (fun ws j =>
    let i := j + 16
    ws.push (rotl32 (ws.getD (i - 3) 0 ^^^ ws.getD (i - 8) 0 ^^^
      ws.getD (i - 14) 0 ^^^ ws.getD (i - 16) 0) 1)) ws0.toArray

def sha1Block (h : Nat × Nat × Nat × Nat × Nat) (block : List Nat) :
    Nat × Nat × Nat × Nat × Nat :=
  let ws := sha1Expand block
  let (a, b, c, d, e) := (List.range 80).foldl
    (fun (st : Nat × Nat × Nat × Nat × Nat) t =>
      let (a, b, c, d, e) := st
      let temp := (rotl32 a 5 + sha1F t b c d + e + sha1K t + ws.getD t 0) % 4294967296
      (temp, a, rotl32 b 30, c, d)) h
  let (h0, h1, h2, h3, h4) := h
  ((h0 + a) % 4294967296, (h1 + b) % 4294967296, (h2 + c) % 4294967296,
   (h3 + d) % 4294967296, (h4 + e) % 4294967296)

def wordBytesBE (w : Nat) : List Nat :=
  [(w >>> 24) &&& 255, (w >>> 16) &&& 255, (w >>> 8) &&& 255, w &&& 255]

def sha1Bytes (msg : List Nat) : List Nat :=
  let blocks := chunks16 (bytesToWords (sha1Pad msg))
  let h := blocks.foldl sha1Block
    (1732584193, 4023233417, 2562383102, 271733878, 3285377520)
  wordBytesBE h.1 ++ wordBytesBE h.2.1 ++ wordBytesBE h.2.2.1 ++
    wordBytesBE h.2.2.2.1 ++ wordBytesBE h.2.2.2.2

def hexNib (n : Nat) : Char :=
  if n < 10 then Char.ofNat (48 + n) else Char.ofNat (87 + n)

def hexDigest (bytes : List Nat) : String :=
  String.mk ((bytes.map (fun b => [hexNib (b / 16), hexNib (b % 16)])).flatten)

/-- hashlib.sha1(key.encode("utf-8")).hexdigest(). -/
def sha1Hex (s : String) : String :=
  hexDigest (sha1Bytes (utf8Bytes s))

/-! ## Transactions (parse_transactions) -/

/-- A transaction dict.  All nullable fields are Options; duplicate_of is
absent (none) until the validator sets it. -/
structure Txn where
  id : String
  account_id : Option String
  date : Option PDate
  description : Option String
  amount : Option ℚ
  debit : Option ℚ
  credit : Option ℚ
  balance : Option ℚ
  currency : Option String
  page_index : Option Int
  row_seq : Option Int
  duplicate_of : Option String
  raw : Option NRow
deriving DecidableEq, Repr

/-- Round to an integer, ties to even (the default Decimal rounding used by
quantize).  Computed on the numerator/denominator directly: x = f + r/d with
0 ≤ r < d, and the fractional part is compared with one half via 2r vs d. -/
def roundHalfEven (x : ℚ) : ℤ :=
  let d : ℤ := Int.ofNat x.den
  let f := x.num.fdiv d
  let r2 := 2 * (x.num - f * d)
  if r2 < d then f
  else if r2 > d then f + 1
  else if f % 2 = 0 then f else f + 1

def quantCents (q : ℚ) : ℤ := roundHalfEven (q * qInt 100)

/-- str(d.quantize(Decimal("0.01"))): sign, integer part and two decimals.
(The sign is taken from the rounded value, so a tiny negative amount rounding
to zero prints "0.00" where Decimal would keep a negative zero; amounts in
scope carry at most two decimals, where the two agree.) -/
def centString (q : ℚ) : String :=
  let c := quantCents q
  let sign := if c < 0 then "-" else ""
  let a := c.natAbs
  sign ++ toString (a / 100) ++ "." ++ padNat 2 (a % 100)

/-- _compute_transaction_id: sha1 over the pipe-joined stable fields. -/
def computeTransactionId (documentId accountId : Option String)
    (dateValue : Option PDate) (description : Option String)
    (amount : Option ℚ) (pageIndex : Option Int) : String :=
  let parts : List String :=
    [documentId.getD "", accountId.getD "",
     (dateValue.map isoformat).getD "",
     pyLower (description.getD ""),
     (amount.map centString).getD "",
     (pageIndex.map toString).getD ""]
  sha1Hex (String.intercalate "|" parts)

/-- The body of the parse_transactions loop for one normalized row: derive
the signed amount from debit/credit when missing, drop the row if it has
neither a normalized description nor any number, recompute debit/credit from
the amount, and attach the deterministic id.  (The re-parse of a string-typed
date is unreachable on typed rows and omitted.) -/
def parseTxnStep (documentId accountId : Option String) (acc : List Txn)
    (row : NRow) : List Txn :=
  let amount :=
    match row.amount with
    | some a => some a
    | none =>
      match row.debit with
      | some d => some (0 - d)
      | none => row.credit
  let hasNumber := amount.isSome || row.debit.isSome || row.credit.isSome ||
    row.balance.isSome
  let descriptionNorm :=
    match row.description with
    | some s =>
      let n := pyStripChars [' ', '-', '|', ':'] (collapseWs s)
      if n = "" then none else some n
    | none => none
  if descriptionNorm = none ∧ ¬ hasNumber then acc
  else
    let parsedDate := row.date
    let pageIndex : Option Int := some (Int.ofNat row.page_index)
    let dc : Option ℚ × Option ℚ :=
      match amount with
      | some a =>
        if a < 0 then (some (0 - a), none)
        else if a > 0 then (none, some a)
        else (none, none)
      | none => (row.debit, row.credit)
    let txnId := computeTransactionId documentId accountId parsedDate
      descriptionNorm amount pageIndex
    acc ++ [{ id := txnId, account_id := accountId, date := parsedDate,
              description := descriptionNorm, amount := amount,
              debit := dc.1, credit := dc.2, balance := row.balance,
              currency := row.currency, page_index := pageIndex,
              row_seq := row.row_seq.map Int.ofNat, duplicate_of := none,
              raw := some row }]

/-- parse_transactions: the loop above over all normalized rows. -/
def parseTransactions (rows : List NRow) (documentId accountId : Option String) :
    List Txn :=
  rows.foldl (parseTxnStep documentId accountId) []

/-- The amount sign invariant of a transaction: amount = credit - debit with
missing fields read as zero, a negative amount puts its magnitude in debit
with credit null, a positive amount sits in credit with debit null, and a
zero or missing amount leaves both null. -/
def amountSignOk (t : Txn) : Prop :=
  t.amount.getD 0 = t.credit.getD 0 - t.debit.getD 0 ∧
  (∀ a, t.amount = some a → a < 0 → t.debit = some (0 - a) ∧ t.credit = none) ∧
  (∀ a, t.amount = some a → 0 < a → t.credit = some a ∧ t.debit = none) ∧
  ((t.amount = none ∨ t.amount = some 0) → t.debit = none ∧ t.credit = none)

/-! ## validate_statement -/

/-- The amount normalization performed on each transaction copy. -/
def normalizeAmountTxn (t : Txn) : Txn :=
  if t.amount.isSome then t
  else
    match t.debit with
    | some d => { t with amount := some (0 - d) }
    | none =>
      match t.credit with
      | some c => { t with amount := some c }
      | none => { t with amount := none }

def charListLt : List Char → List Char → Bool
  | [], [] => false
  | [], _ :: _ => true
  | _ :: _, [] => false
  | a :: as, b :: bs => a < b || (a = b && charListLt as bs)

/-- Python string comparison: lexicographic on code points. -/
def strLt (a b : String) : Bool := charListLt a.data b.data

def sortKeyOf (t : Txn) : String × Int × Int × String :=
  ((t.date.map isoformat).getD "", t.page_index.getD (-1), t.row_seq.getD (-1),
   t.description.getD "")

/-- Non-strict lexicographic order on the sort keys (date string, page index,
row sequence, description); tuple comparison as Python performs it. -/
def sortKeyLE (a b : Txn) : Bool :=
  let ka := sortKeyOf a
  let kb := sortKeyOf b
  strLt ka.1 kb.1 || (ka.1 = kb.1 &&
    (ka.2.1 < kb.2.1 || (ka.2.1 = kb.2.1 &&
      (ka.2.2.1 < kb.2.2.1 || (ka.2.2.1 = kb.2.2.1 &&
        (strLt ka.2.2.2 kb.2.2.2 || ka.2.2.2 = kb.2.2.2))))))

def addAmount (acc : ℚ) (t : Txn) : ℚ :=
  match t.amount with
  | some a => acc + a
  | none => acc

/-- Rebuild running balances forward from the opening: the running total adds
every present amount; a transaction without a balance receives the current
running value.  Also reports whether anything was filled in. -/
def backfillLoop (running : ℚ) : List Txn → List Txn × Bool
  | [] => ([], false)
  | t :: ts =>
    let running2 :=
      match t.amount with
      | some a => running + a
      | none => running
    let r := backfillLoop running2 ts
    if t.balance.isSome then (t :: r.1, r.2)
    else ({ t with balance := some running2 } :: r.1, true)

/-- The duplicate-detection key: date isoformat, whitespace-normalized
lowercased description, absolute amount quantized to cents, currency —
pipe-joined.  The page index is deliberately absent. -/
def dupKey (t : Txn) : String :=
  String.intercalate "|"
    [(t.date.map isoformat).getD "",
     pyLower (pyStrip (collapseWs (t.description.getD ""))),
     (t.amount.map (fun a => centString |a|)).getD "",
     t.currency.getD ""]

/-- Mark duplicates: a transaction whose key was seen before gets
duplicate_of set to the first occurrence's id; the flag records whether this
pass marked it. -/
def dedupLoop (seen : List (String × String)) : List Txn → List (Txn × Bool)
  | [] => []
  | t :: ts =>
    let key := dupKey t
    match seen.lookup key with
    | some firstId => ({ t with duplicate_of := some firstId }, true) :: dedupLoop seen ts
    | none => (t, false) :: dedupLoop ((key, t.id) :: seen) ts

/-- The validation summary dict. -/
structure VSummary where
  transactions_count : Nat
  sum_amount : ℚ
  opening_balance_input : Option ℚ
  closing_balance_input : Option ℚ
  opening_balance_detected : Option ℚ
  closing_balance_detected : Option ℚ
  opening_balance_used : Option ℚ
  closing_balance_used : Option ℚ
  expected_closing : Option ℚ
  balance_check_passed : Option Bool
  balance_check_delta : Option ℚ
  running_balance_rebuilt : Bool
  duplicates_found : Nat
  duplicates_removed : Nat
deriving DecidableEq, Repr

/-- The sorted, amount-normalized working copy of the input transactions. -/
def sortedTxns (txns : List Txn) : List Txn :=
  sSort sortKeyLE (txns.map normalizeAmountTxn)

/-- Detected opening/closing balances from inline balances in sorted order. -/
def detectBalancesInline (sorted : List Txn) : Option ℚ × Option ℚ :=
  match sorted.enum.filter (fun p => p.2.balance.isSome) with
  | [] => (none, none)
  | (i, t) :: restWB =>
    let balFirst := t.balance.getD 0
    let lastP := ((i, t) :: restWB).getLast?.getD (i, t)
    let balLast := lastP.2.balance.getD 0
    let subtotal := (sorted.take (i + 1)).foldl addAmount 0
    (some (balFirst - subtotal), some balLast)

/-- The opening balance the validator uses: the supplied one, else the
detected one. -/
def openingUsedOf (txns : List Txn) (openingBalance : Option ℚ) : Option ℚ :=
  match openingBalance with
  | some o => some o
  | none => (detectBalancesInline (sortedTxns txns)).1

/-- The closing balance the validator uses: the supplied one, else the
detected one. -/
def closingUsedOf (txns : List Txn) (closingBalance : Option ℚ) : Option ℚ :=
  match closingBalance with
  | some c => some c
  | none => (detectBalancesInline (sortedTxns txns)).2

/-- The working list after the balance backfill stage (with the
rebuilt flag). -/
def backedOf (txns : List Txn) (openingBalance : Option ℚ) : List Txn × Bool :=
  match openingUsedOf txns openingBalance with
  | some o => backfillLoop o (sortedTxns txns)
  | none => (sortedTxns txns, false)

/-- The duplicate-marked working list, each with this pass's flag. -/
def pairsOf (txns : List Txn) (openingBalance : Option ℚ) : List (Txn × Bool) :=
  dedupLoop [] (backedOf txns openingBalance).1

/-- validate_statement: amount normalization on copies, deterministic sort,
totals, inline-balance detection, the 0.02-tolerance balance check, running
balance backfill, duplicate flagging, optional duplicate dropping, and the
summary dict. -/
def validateStatement (txns : List Txn) (openingBalance closingBalance : Option ℚ)
    (dropDuplicates : Bool) : List Txn × VSummary :=
  let sorted := sortedTxns txns
  let total := sorted.foldl addAmount 0
  let det := detectBalancesInline sorted
  let openingUsed := openingUsedOf txns openingBalance
  let closingUsed := closingUsedOf txns closingBalance
  let checks : Option ℚ × Option Bool × Option ℚ :=
    match openingUsed with
    | some o =>
      let expected := o + total
      match closingUsed with
      | some c =>
        (some expected, some (decide (|expected - c| ≤ 2 / 100)), some (expected - c))
      | none => (some expected, none, none)
    | none => (none, none, none)
  let br := backedOf txns openingBalance
  let pairs := pairsOf txns openingBalance
  let duplicatesFound := (pairs.filter (fun p => p.2)).length
  let outList :=
    if dropDuplicates then (pairs.filter (fun p => ¬ p.2)).map (fun p => p.1)
    else pairs.map (fun p => p.1)
  let duplicatesRemoved := if dropDuplicates then duplicatesFound else 0
  (outList,
   { transactions_count := outList.length, sum_amount := total,
     opening_balance_input := openingBalance,
     closing_balance_input := closingBalance,
     opening_balance_detected := det.1, closing_balance_detected := det.2,
     opening_balance_used := openingUsed, closing_balance_used := closingUsed,
     expected_closing := checks.1, balance_check_passed := checks.2.1,
     balance_check_delta := checks.2.2, running_balance_rebuilt := br.2,
     duplicates_found := duplicatesFound, duplicates_removed := duplicatesRemoved })

/-- Equality of all transaction fields the validator never touches — every
field except amount (normalized), balance (backfilled) and duplicate_of
(set by duplicate marking). -/
def frameEq (a b : Txn) : Prop :=
  a.id = b.id ∧ a.account_id = b.account_id ∧ a.date = b.date ∧
  a.description = b.description ∧ a.debit = b.debit ∧ a.credit = b.credit ∧
  a.currency = b.currency ∧ a.page_index = b.page_index ∧
  a.row_seq = b.row_seq ∧ a.raw = b.raw

/-! ## PII masking (mask_pii / _mask_pii_text / _deterministic_token) -/

/-- _deterministic_token: strip whitespace, sha1-hex prefix of 10, keep the
last keep_last digits, format as a tagged token. -/
def deterministicToken (tag original : String) (keepLast : Nat) : String :=
  let clean := String.mk (original.data.filter (fun c => ¬ pyIsSpace c))
  let h := String.mk ((sha1Hex clean).data.take 10)
  let digits := clean.data.filter Char.isDigit
  let tail := if keepLast > 0 then String.mk (digits.drop (digits.length - keepLast))
    else ""
  if tail ≠ "" then "<" ++ tag ++ ":" ++ h ++ ":" ++ tail ++ ">"
  else "<" ++ tag ++ ":" ++ h ++ ">"

/-- _luhn_check. -/
def luhnCheck (digits : String) : Bool :=
  let total := (digits.data.reverse.enum.map (fun p =>
    let n := p.2.toNat - 48
    if p.1 % 2 = 1 then (if n * 2 > 9 then n * 2 - 9 else n * 2) else n)).sum
  total % 10 = 0

def upperCls : RE := .cls (fun c => 'A' ≤ c ∧ c ≤ 'Z')

def upperDigitCls : RE := .cls (fun c => ('A' ≤ c ∧ c ≤ 'Z') ∨ c.isDigit)

def ibanRE : RE := rcat [.wb, rrep upperCls 2 2, rrep upperDigitCls 13 34, .wb]

def panRE : RE :=
  rcat [.wb, .rep (rcat [rdigit, ropt (rchars " -")]) 13 (some 19) false, .wb]

def bvnMaskRE : RE := rcat [.wb, rrep rdigit 11 11, .wb]

def sortMaskRE : RE :=
  rcat [.wb, rrep rdigit 2 2, rlit "-", rrep rdigit 2 2, rlit "-",
        rrep rdigit 2 2, .wb]

def colonWsCls : RE := .cls (fun c => c = ':' || pyIsSpace c)

/-- The account-number pattern (IGNORECASE): an optional keyword prefix,
separators, then 8..12 digits with optional single separators, at a word
boundary. -/
def acctRE : RE :=
  rcat [ropt (rcat [rliti "account", rstar rws,
          .alt (rliti "no.") (rliti "number"), rstar colonWsCls]),
        rstar (.cls (fun c => c = '#' || c = ':' || c = ';' || pyIsSpace c || c = '-')),
        .grp 1 (.rep (rcat [rdigit, ropt (rchars " -")])
          8 (some 12) false),
        .wb]

def routingMaskRE : RE :=
  rcat [rliti "routing", rstar rws, rliti "number",
        rstar (.cls (fun c => c = ':' || pyIsSpace c || c = '-')),
        .grp 1 (.rep (.cls (fun c => c.isDigit || c = '-' || pyIsSpace c)) 9 none false)]

def emailRE : RE :=
  rcat [rplus (.cls (fun c => c.isAlpha || c.isDigit || c = '.' || c = '_' ||
          c = '%' || c = '+' || c = '-')),
        rlit "@",
        rplus (.cls (fun c => c.isAlpha || c.isDigit || c = '.' || c = '-')),
        rlit ".",
        .rep (.cls Char.isAlpha) 2 none false]

/-- _mask_pii_text: the substitution cascade in source order; with the
account-only configuration (the default) only the IBAN and account-number
substitutions are active. -/
def maskPiiText (accountOnly : Bool) (text : String) : String :=
  let s := reSub ibanRE
    (fun m => deterministicToken "IBAN"
      ((groupStr (strToArr text) m 0).getD "") 4) text
  let s :=
    if ¬ accountOnly then
      reSub panRE (fun m =>
        let raw := (groupStr (strToArr s) m 0).getD ""
        let digits := String.mk (raw.data.filter Char.isDigit)
        if 13 ≤ digits.length ∧ digits.length ≤ 19 ∧ luhnCheck digits then
          deterministicToken "CARD" digits 4
        else raw) s
    else s
  let s :=
    if ¬ accountOnly then
      reSub bvnMaskRE (fun m =>
        deterministicToken "BVN" ((groupStr (strToArr s) m 0).getD "") 2) s
    else s
  let s :=
    if ¬ accountOnly then
      reSub sortMaskRE (fun m =>
        deterministicToken "SORT"
          (strRemoveChars ['-'] ((groupStr (strToArr s) m 0).getD "")) 2) s
    else s
  let s := reSub acctRE (fun m =>
    let whole := (groupStr (strToArr s) m 0).getD ""
    let digits := String.mk (whole.data.filter Char.isDigit)
    if 8 ≤ digits.length ∧ digits.length ≤ 12 then
      deterministicToken "ACCT" digits 4
    else whole) s
  let s :=
    if ¬ accountOnly then
      reSub routingMaskRE (fun m =>
        let whole := (groupStr (strToArr s) m 0).getD ""
        let digits := String.mk (whole.data.filter Char.isDigit)
        if digits.length = 9 then deterministicToken "ROUTING" digits 2 else whole) s
    else s
  let s :=
    if ¬ accountOnly then
      reSub emailRE (fun m =>
        deterministicToken "EMAIL" ((groupStr (strToArr s) m 0).getD "") 0) s
    else s
  s

/-- mask_pii on one transaction copy: mask the description and the string
leaves of the raw row (_mask_in_obj); the final stringification of raw's
leaf values is a representation change that no claim observes and is not
modelled. -/
def maskPiiTxn (accountOnly : Bool) (t : Txn) : Txn :=
  { t with
    description := t.description.map (maskPiiText accountOnly),
    raw := t.raw.map (fun r =>
      { r with
        description := r.description.map (maskPiiText accountOnly),
        currency := r.currency.map (maskPiiText accountOnly),
        sourceTier := maskPiiText accountOnly r.sourceTier }) }

def maskPii (accountOnly : Bool) (txns : List Txn) : List Txn :=
  txns.map (maskPiiTxn accountOnly)

/-! ## Fingerprint -/

structure Fingerprint where
  document_id : String
  pages_count : Nat
  bank : Option String
  currency : Option String
  country : Option String
  anchors : List (String × List String)
  confidence : ℚ
deriving DecidableEq, Repr

def acctNumAnchorRE : RE :=
  rcat [rliti "account", rstar rws, .alt (rliti "no.") (rliti "number"),
        rstar colonWsCls,
        .grp 1 (.rep (.cls (fun c => c.isDigit || c = '-' || pyIsSpace c)) 6 none false)]

def ibanAnchorRE : RE := ibanRE

def sortCodeAnchorRE : RE :=
  rcat [rliti "sort", rstar rws, rliti "code", rstar colonWsCls,
        .grp 1 (.rep (.cls (fun c => c.isDigit || c = '-')) 6 (some 8) false)]

def bvnAnchorRE : RE :=
  rcat [.wb, rliti "bvn", rstar colonWsCls, .grp 1 (rrep rdigit 11 11), .wb]

def routingAnchorRE : RE :=
  rcat [rliti "routing", rstar rws, rliti "number", rstar colonWsCls,
        .grp 1 (.rep (.cls (fun c => c.isDigit || c = '-')) 5 none false)]

def pyUpper (s : String) : String :=
  String.mk (s.data.map (fun c => if 'a' ≤ c ∧ c ≤ 'z' then Char.ofNat (c.toNat - 32) else c))

def rword (w : String) : RE := rcat [.wb, rlit w, .wb]

/-- The ordered currency hint patterns (searched on the lowercased text). -/
def currencyPatterns : List (RE × String × ℚ) :=
  [(.alt (rword "ngn") (rlit "₦"), "NGN", 8 / 10),
   (.alt (rword "usd") (rlit "$"), "USD", 6 / 10),
   (.alt (rword "eur") (rlit "€"), "EUR", 6 / 10),
   (.alt (rword "gpb") (.alt (rword "gbp") (rlit "£")), "GBP", 6 / 10),
   (.alt (rword "inr") (rlit "₹"), "INR", 6 / 10),
   (.alt (rword "cad") (rlit "$"), "CAD", 4 / 10)]

/-- The ordered bank hint patterns (searched on the lowercased text). -/
def bankHints : List (RE × String × ℚ) :=
  [(rword "access bank", "ACCESS_BANK", 9 / 10),
   (.alt (rword "gtbank") (rlit "guaranty trust"), "GTBANK", 9 / 10),
   (rword "zenith bank", "ZENITH", 9 / 10),
   (.alt (rword "first bank") (rlit "firstbank"), "FIRST_BANK", 9 / 10),
   (.alt (rword "united bank for africa") (rword "uba"), "UBA", 8 / 10),
   (rword "polaris bank", "POLARIS", 8 / 10),
   (rword "union bank", "UNION_BANK", 8 / 10),
   (rword "sterling bank", "STERLING", 8 / 10),
   (rword "fidelity bank", "FIDELITY", 8 / 10),
   (rword "ecobank", "ECOBANK", 8 / 10),
   (rword "keystone bank", "KEYSTONE", 8 / 10),
   (.alt (rword "fcmb") (rlit "first city monument"), "FCMB", 8 / 10),
   (rword "stanbic ibtc", "STANBIC_IBTC", 8 / 10),
   (.alt (rword "opay") (.alt (rword "opay digital") (rword "opay bank")), "OPAY", 95 / 100)]

def ngBanks : List String :=
  ["ACCESS_BANK", "GTBANK", "ZENITH", "FIRST_BANK", "UBA", "POLARIS",
   "UNION_BANK", "STERLING", "FIDELITY", "ECOBANK", "KEYSTONE", "FCMB",
   "STANBIC_IBTC"]

/-- fingerprint: anchors, first-match-wins currency and bank hints, country
inference from bank identity, and the weighted confidence clamped to [0,1]. -/
def fingerprint (extracted : ExtractionResult) : Fingerprint :=
  let firstText := extracted.first_page_text
  let textNorm := pyLower firstText
  let accountNumbers := reFindAll acctNumAnchorRE 1 firstText
  let ibanMatches := reFindAll ibanAnchorRE 0 firstText
  let sortCodes := reFindAll sortCodeAnchorRE 1 firstText
  let bvnMatches := reFindAll bvnAnchorRE 1 firstText
  let routingNumbers := reFindAll routingAnchorRE 1 firstText
  let anchors : List (String × List String) :=
    (if ¬ accountNumbers.isEmpty then [("account_number", accountNumbers)] else []) ++
    (if ¬ ibanMatches.isEmpty then [("iban", ibanMatches)] else []) ++
    (if ¬ sortCodes.isEmpty then [("sort_code", sortCodes)] else []) ++
    (if ¬ bvnMatches.isEmpty then [("bvn", bvnMatches)] else []) ++
    (if ¬ routingNumbers.isEmpty then [("routing_number", routingNumbers)] else [])
  let cur := currencyPatterns.find? (fun p => (reSearch p.1 textNorm).isSome)
  let currency := cur.map (fun p => p.2.1)
  let currencyConf := (cur.map (fun p => p.2.2)).getD 0
  let bk := bankHints.find? (fun p => (reSearch p.1 textNorm).isSome)
  let bank := bk.map (fun p => p.2.1)
  let bankConf := (bk.map (fun p => p.2.2)).getD 0
  let country : Option String :=
    match bank with
    | some b => if ngBanks.contains b then some "NG" else none
    | none => none
  let conf0 : ℚ := 2 / 10
  let conf1 := if bank.isSome then conf0 + bankConf else conf0
  let conf2 := if currency.isSome then conf1 + currencyConf * (5 / 10) else conf1
  let conf3 := if ¬ anchors.isEmpty then
      conf2 + min (4 / 10 : ℚ) ((1 / 10 : ℚ) * anchors.length) else conf2
  let confidence := max (0 : ℚ) (min 1 conf3)
  { document_id := extracted.document_id, pages_count := extracted.pages_count,
    bank := bank, currency := currency, country := country, anchors := anchors,
    confidence := confidence }

/-! ## _detect_balances_from_text -/

def restOfLineCls : RE := .cls (fun c => c ≠ '\n')

def openingBalancePatterns : List RE :=
  [rcat [rliti "opening", rstar rws, rliti "balance",
         rstar (.cls (fun c => c = ':' || pyIsSpace c || c = '-')),
         .grp 1 (rplus restOfLineCls)],
   rcat [rliti "balance", rstar rws, rliti "brought", rstar rws, rliti "forward",
         rstar (.cls (fun c => c = ':' || pyIsSpace c || c = '-')),
         .grp 1 (rplus restOfLineCls)],
   rcat [rliti "start", ropt (rliti "ing"), rstar rws, rliti "balance",
         rstar (.cls (fun c => c = ':' || pyIsSpace c || c = '-')),
         .grp 1 (rplus restOfLineCls)]]

def closingBalancePatterns : List RE :=
  [rcat [rliti "closing", rstar rws, rliti "balance",
         rstar (.cls (fun c => c = ':' || pyIsSpace c || c = '-')),
         .grp 1 (rplus restOfLineCls)],
   rcat [rliti "balance", rstar rws, rliti "carried", rstar rws, rliti "forward",
         rstar (.cls (fun c => c = ':' || pyIsSpace c || c = '-')),
         .grp 1 (rplus restOfLineCls)],
   rcat [rliti "end", ropt (rliti "ing"), rstar rws, rliti "balance",
         rstar (.cls (fun c => c = ':' || pyIsSpace c || c = '-')),
         .grp 1 (rplus restOfLineCls)]]

def findAmountInText (patterns : List RE) (hay : String) (ch : Option String) :
    Option ℚ :=
  patterns.findSome? (fun pat =>
    match reSearch pat hay with
    | some m => parseAmount (groupStr (strToArr hay) m 1) ch
    | none => none)

/-- _detect_balances_from_text: look for an opening balance on the first two
pages and a closing balance on the last two. -/
def detectBalancesFromText (texts : List String) (ch : Option String) :
    Option ℚ × Option ℚ :=
  if texts.isEmpty then (none, none)
  else
    let headText := String.intercalate "\n" (texts.take (min 2 texts.length))
    let tailText := String.intercalate "\n" (texts.drop (texts.length - 2))
    (findAmountInText openingBalancePatterns headText ch,
     findAmountInText closingBalancePatterns tailText ch)

/-! ## Parser registry (statement_parsers.py) -/

/-- OpayParser.supports. -/
def opaySupports (fp : Fingerprint) : Bool :=
  match fp.bank with
  | some b => ["OPAY", "OPAY_BANK", "OPAY_NG"].contains (pyUpper b)
  | none => false

/-- NgGenericParser.supports. -/
def ngGenericSupports (fp : Fingerprint) : Bool :=
  fp.country = some "NG"

/-- ParserRegistry.select on the registered [OpayParser, NgGenericParser]. -/
def selectParser (fp : Fingerprint) : Option String :=
  if opaySupports fp then some "OPAY"
  else if ngGenericSupports fp then some "NG_GENERIC"
  else none

/-- OpayParser header canonicalization. -/
def opayCanon (cell : String) : Option String :=
  let t := pyLower (pyStrip cell)
  let syn : List (String × List String) :=
    [("date", ["date", "tran date", "transaction date", "value date"]),
     ("description", ["description", "narration", "details", "remark", "particulars"]),
     ("amount", ["amount", "transaction amount", "amt"]),
     ("balance", ["balance", "running balance", "bal"]),
     ("type", ["type", "dr/cr", "dc"]),
     ("credit", ["credit", "cr"]),
     ("debit", ["debit", "dr"])]
  match syn.find? (fun p => p.2.contains t) with
  | some p => some p.1
  | none =>
    if containsSub t "date" then some "date"
    else if ["narration", "details", "descr", "remark", "particular"].any
        (containsSub t) then some "description"
    else if containsSub t "balance" then some "balance"
    else if containsSub t "amount" || containsSub t "amt" then some "amount"
    else if t = "dr" ∨ t = "debit" then some "debit"
    else if t = "cr" ∨ t = "credit" then some "credit"
    else if t = "type" ∨ t = "dr/cr" ∨ t = "dc" then some "type"
    else none

/-- OpayParser.normalize_rows.  The source stores raw cell strings in the
date/amount/debit/credit/balance slots; every downstream isinstance check
rejects a string exactly as it rejects None, so the typed embedding records
those slots as none, which is behavior-preserving for every later stage. -/
def opayNormalizeRows (extracted : ExtractionResult) : List NRow :=
  (extracted.page_tables.enum.map (fun pt =>
    (pt.2.map (fun table =>
      match table with
      | [] => []
      | header :: dataRows =>
        let mapping := header.enum.filterMap
          (fun p => (opayCanon p.2).map (fun c => (p.1, c)))
        let vals := mapping.map (·.2)
        if ¬ (vals.contains "date" ∧ (vals.contains "amount" ∨
            vals.contains "credit" ∨ vals.contains "debit")) then []
        else
          dataRows.map (fun rawRow =>
            let base : NRow :=
              { date := none, description := none, debit := none, credit := none,
                amount := none, balance := none, currency := none,
                sourceTier := "table", page_index := pt.1, row_seq := none }
            mapping.foldl (fun r p =>
              if p.1 ≥ rawRow.length then r
              else if p.2 = "description" then
                { r with description := some (pyStrip ((r.description.getD "") ++
                    " " ++ rawRow.getD p.1 "")) }
              else r) base))).flatten)).flatten

/-! ## extract -/

/-- The configuration surface the embedded stages read (config.py defaults). -/
structure Config where
  maxPages : Nat := 200
  maxCharsPerPage : Nat := 20000
  ocrEnabled : Bool := true
  haveTesseract : Bool := false
  ocrMaxPages : Nat := 5
  earlyStopMinRows : Nat := 0
  piiMaskAccountOnly : Bool := true
  debugOverlayEnabled : Bool := false

/-- What the pdfplumber library yields for one page: extracted text, raw
tables (cells may be None), positioned words, the image flag, and the text
OCR would produce when invoked (none models a failed or empty OCR). -/
structure PageData where
  text : String
  tablesRaw : List (List (List (Option String)))
  words : List Token
  hasImages : Bool
  ocrText : Option String
deriving Repr

/-- A PDF as the pipeline observes it: the sha256 content hash computed from
the raw bytes, and the per-page library output.  The bytes themselves and the
hashing of them stay outside the embedding. -/
structure PdfContent where
  documentId : String
  pages : List PageData
deriving Repr

def emptyPageData : PageData :=
  { text := "", tablesRaw := [], words := [], hasImages := false, ocrText := none }

structure ProcessedPage where
  text : String
  tables : List (List (List String))
  words : List Token
  isImageLike : Bool
  ocrApplied : Bool
deriving Repr

/-- process_single_page: normalize table cells, gate word extraction on the
absence of tables (or debug overlays), apply OCR when the page is image-like
or has no text (the source's concurrent-OCR page cap compares against a list
that is only filled after all pages were processed, so it never limits), and
truncate the text to the per-page character cap. -/
def processSinglePage (cfg : Config) (pd : PageData) : ProcessedPage :=
  let tablesNorm := pd.tablesRaw.map (fun table =>
    table.map (fun row => row.map (fun cell => pyStrip (cell.getD ""))))
  let isImageLike := pd.hasImages ∧ pyStrip pd.text = ""
  let words := if tablesNorm.isEmpty ∨ cfg.debugOverlayEnabled then pd.words else []
  let ocrGate := cfg.ocrEnabled ∧ cfg.haveTesseract ∧ 0 < cfg.ocrMaxPages ∧
    (isImageLike ∨ pyStrip pd.text = "")
  let (text1, ocrApplied) :=
    if ocrGate then
      match pd.ocrText with
      | some t => if pyStrip t ≠ "" then (t, true) else (pd.text, false)
      | none => (pd.text, false)
    else (pd.text, false)
  let text2 := String.mk (text1.data.take cfg.maxCharsPerPage)
  { text := text2, tables := tablesNorm, words := words,
    isImageLike := isImageLike, ocrApplied := ocrApplied }

structure ExtractOut where
  result : ExtractionResult
  warnings : List String
  ocrAppliedPages : List Nat
deriving Repr

/-- extract: compute the page index list (truncated to max_pages with a
warning when exceeded), process each selected page, and reassemble in index
order.  The pages_count recorded in the result is the value read from the
document before truncation. -/
def extract (cfg : Config) (content : PdfContent) : ExtractOut :=
  let pagesCount := content.pages.length
  let exceeded := pagesCount > cfg.maxPages
  let indices := if exceeded then List.range cfg.maxPages else List.range pagesCount
  let processed := indices.map (fun i =>
    (i, processSinglePage cfg (content.pages.getD i emptyPageData)))
  let pageTexts := processed.map (fun p => p.2.text)
  let pageTables := processed.map (fun p => p.2.tables)
  let pageWords := processed.map (fun p => p.2.words)
  let imagePages := processed.map (fun p => p.2.isImageLike)
  let ocrPages := (processed.filter (fun p => p.2.ocrApplied)).map (fun p => p.1)
  { result :=
      { document_id := content.documentId,
        pages_count := pagesCount,
        page_texts := pageTexts,
        page_tables := pageTables,
        page_words := pageWords,
        image_based_pages := imagePages,
        first_page_text := (pageTexts.head?).getD "" },
    warnings := if exceeded then ["pdf_pages_exceed_limit"] else [],
    ocrAppliedPages := ocrPages }

/-! ## process_pdf -/

structure PipelineResult where
  document_id : String
  filename : Option String
  pages_count : Nat
  fingerprint : Fingerprint
  validation : VSummary
  transactions : List Txn
deriving DecidableEq, Repr

/-- The persistence collaborator: has / get_result / persist.  get_result
returning none models the exception path, which the orchestrator swallows. -/
structure Storage where
  hasDoc : String → Bool
  getResult : String → Option PipelineResult
  canPersist : Bool

/-- process_pdf: extract, then the idempotency short-circuit against the
persistence collaborator, then fingerprint, parser selection, normalization,
transaction building, balance auto-detection, validation, masking, result
assembly and persistence.  The returned trace lists the stages that ran, in
order, for the frame claims about the cache short-circuit. -/
def processPdf (cfg : Config) (storage : Option Storage) (content : PdfContent)
    (filename accountId : Option String) (openingBalance closingBalance : Option ℚ)
    (dropDuplicates : Bool) : PipelineResult × List String :=
  let ex := extract cfg content
  let extracted := ex.result
  let cached : Option PipelineResult :=
    match storage with
    | some st =>
      if st.hasDoc extracted.document_id then st.getResult extracted.document_id
      else none
    | none => none
  match cached with
  | some r => (r, ["extract", "cache_hit"])
  | none =>
    let fp := fingerprint extracted
    let selected := selectParser fp
    let parserRows :=
      match selected with
      | some "OPAY" => opayNormalizeRows extracted
      | _ => []
    let rows :=
      if parserRows.isEmpty then normalizeRows cfg.earlyStopMinRows extracted fp.currency
      else parserRows
    let txns := parseTransactions rows (some extracted.document_id) accountId
    let balances :=
      if openingBalance = none ∨ closingBalance = none then
        let auto := detectBalancesFromText extracted.page_texts fp.currency
        ((if openingBalance.isSome then openingBalance else auto.1),
         (if closingBalance.isSome then closingBalance else auto.2))
      else (openingBalance, closingBalance)
    let vr := validateStatement txns balances.1 balances.2 dropDuplicates
    let masked := maskPii cfg.piiMaskAccountOnly vr.1
    let result : PipelineResult :=
      { document_id := extracted.document_id, filename := filename,
        pages_count := extracted.pages_count, fingerprint := fp,
        validation := vr.2, transactions := masked }
    let trace := ["extract", "fingerprint", "normalize_rows",
      "parse_transactions", "validate_statement", "mask_pii"] ++
      (match storage with
       | some st => if st.canPersist then ["persist"] else []
       | none => [])
    (result, trace)

/-! ## Concrete inputs used by counterexamples and witnesses -/

/-- A default transaction for list indexing with getD. -/
def defTxn : Txn :=
  { id := "", account_id := none, date := none, description := none,
    amount := none, debit := none, credit := none, balance := none,
    currency := none, page_index := none, row_seq := none,
    duplicate_of := none, raw := none }

/-- The one-page one-table statement of the concrete scenario: header
Date/Narration/Debit/Credit/Balance, an opening-only row, a debit row and a
credit row. -/
def scenarioTable : List (List (Option String)) :=
  [[some "Date", some "Narration", some "Debit", some "Credit", some "Balance"],
   [some "01/02/2024", some "Opening", some "", some ""],
   [some "02/02/2024", some "Coffee Shop", some "500.00", some "", some "9500.00"],
   [some "03/02/2024", some "Salary", some "", some "10000.00", some "19500.00"]]

def scenarioPdf : PdfContent :=
  { documentId := "doc3",
    pages := [{ text := "", tablesRaw := [scenarioTable], words := [],
                hasImages := false, ocrText := none }] }

/-- The pipeline run of the concrete scenario: defaults, no storage,
opening_balance = 10000 supplied. -/
def scenarioRun : PipelineResult :=
  (processPdf {} none scenarioPdf none none (some (qNat 10000)) none false).1

/-- A small concrete transaction list for witnesses. -/
def smallTxns : List Txn :=
  [{ defTxn with id := "w1", amount := some (-5) },
   { defTxn with id := "w2", amount := some 100 }]

/-- A configuration whose page cap is two, for the page-limit claims. -/
def cfgTwoPages : Config := { maxPages := 2 }

/-- A three-page document (each page trivial), exceeding the cap above. -/
def threePagePdf : PdfContent :=
  { documentId := "d6",
    pages := [{ text := "page one", tablesRaw := [], words := [], hasImages := false,
                ocrText := none },
              { text := "page two", tablesRaw := [], words := [], hasImages := false,
                ocrText := none },
              { text := "page three", tablesRaw := [], words := [], hasImages := false,
                ocrText := none }] }

/-- A fingerprint literal for the cached pipeline result below. -/
def fpCached : Fingerprint :=
  { document_id := "d7", pages_count := 1, bank := none, currency := none,
    country := none, anchors := [], confidence := qNat 0 }

/-- A validation-summary literal for the cached pipeline result below. -/
def vsCached : VSummary :=
  { transactions_count := 0, sum_amount := qNat 0, opening_balance_input := none,
    closing_balance_input := none, opening_balance_detected := none,
    closing_balance_detected := none, opening_balance_used := none,
    closing_balance_used := none, expected_closing := none,
    balance_check_passed := none, balance_check_delta := none,
    running_balance_rebuilt := false, duplicates_found := 0,
    duplicates_removed := 0 }

/-- The result the persistence collaborator reports as already stored. -/
def cachedResult : PipelineResult :=
  { document_id := "d7", filename := none, pages_count := 1,
    fingerprint := fpCached, validation := vsCached, transactions := [] }

/-- A storage collaborator that reports every document as seen and returns
the cached result. -/
def stCache : Storage :=
  { hasDoc := fun _ => true, getResult := fun _ => some cachedResult,
    canPersist := true }

/-- A one-page document processed against the caching storage. -/
def cachedPdf : PdfContent :=
  { documentId := "d7",
    pages := [{ text := "01/02/2024 PAYMENT 10.00", tablesRaw := [], words := [],
                hasImages := false, ocrText := none }] }

/-- A normalized row with a description and a debit of 5, for the C1 witness. -/
def c1Row : NRow :=
  { emptyNRow none "table" 0 0 with
    description := some "w",
    debit := some (qNat 5) }

/-- The single transaction parsed from the row above. -/
def c1Txn : Txn := (parseTransactions [c1Row] none none).headD defTxn

/-- Two textually and numerically identical transactions on different pages,
for the duplicate-detection witness. -/
def c4TxnA : Txn := { defTxn with id := "a", description := some "x", amount := some (qNat 7) }

def c4TxnB : Txn :=
  { defTxn with
    id := "b",
    description := some "x",
    amount := some (qNat 7),
    page_index := some (Int.ofNat 1) }

def c4Txns : List Txn := [c4TxnA, c4TxnB]

/-- Two separated column bands for the token-assignment witness. -/
def c10Bands : List (ℚ × ℚ) := [(qNat 0, qNat 10), (qNat 20, qNat 30)]

/-- A token whose midpoint (3) falls inside the first band. -/
def c10Tok : Token := { x0 := qNat 2, x1 := qNat 4, top := qNat 0, text := "a" }

/-- A token whose midpoint (14) falls outside both bands. -/
def c10TokOut : Token := { x0 := qNat 12, x1 := qNat 16, top := qNat 0, text := "b" }

def c10Toks : List Token := [c10Tok, c10TokOut]

/-- An extraction with no tables and no positioned words, only a page text,
for the tier-fallback witness. -/
def c5Ext : ExtractionResult :=
  { document_id := "d5", pages_count := 1,
    page_texts := ["01/02/2024 PAYMENT 10.00"], page_tables := [],
    page_words := [], image_based_pages := [false], first_page_text := "" }

/-! ## Helper lemmas -/

theorem sInsert_perm (le : α → α → Bool) (x : α) (l : List α) :
    List.Perm (sInsert le x l) (x :: l) := by
  induction l with
  | nil => simp [sInsert]
  | cons y ys ih =>
    simp only [sInsert]
    split
    · exact List.Perm.refl _
    · exact ((ih.cons y).trans (List.Perm.swap x y ys))

theorem sSort_perm (le : α → α → Bool) (l : List α) :
    List.Perm (sSort le l) l := by
  induction l with
  | nil => simp [sSort]
  | cons x xs ih =>
    exact (sInsert_perm le x (sSort le xs)).trans (ih.cons x)

theorem addAmount_eq (a : ℚ) (t : Txn) : addAmount a t = a + (t.amount.getD 0) := by
  cases h : t.amount <;> simp [addAmount, h]

theorem foldl_addAmount (l : List Txn) :
    ∀ a : ℚ, l.foldl addAmount a = a + (l.map (fun t => t.amount.getD 0)).sum := by
  induction l with
  | nil => intro a; simp
  | cons t ts ih =>
    intro a
    simp only [List.foldl_cons, List.map_cons, List.sum_cons, ih, addAmount_eq]
    ring

theorem sortedTxns_sum (txns : List Txn) :
    (sortedTxns txns).foldl addAmount 0 =
      ((txns.map normalizeAmountTxn).map (fun t => t.amount.getD 0)).sum := by
  rw [foldl_addAmount]
  have hp : List.Perm (sortedTxns txns) (txns.map normalizeAmountTxn) :=
    sSort_perm _ _
  rw [(hp.map (fun t => t.amount.getD 0)).sum_eq]
  ring

theorem amountSignOk_some (a : ℚ) (t : Txn) (hA : t.amount = some a)
    (hdc : (t.debit, t.credit) =
      (if a < 0 then (some (0 - a), none)
       else if a > 0 then (none, some a) else (none, none))) :
    amountSignOk t := by
  rcases lt_trichotomy a 0 with h | h | h
  · rw [if_pos h] at hdc
    have hd : t.debit = some (0 - a) := congrArg Prod.fst hdc
    have hc : t.credit = none := congrArg Prod.snd hdc
    refine ⟨?_, ?_, ?_, ?_⟩
    · rw [hA, hd, hc]
      simp only [Option.getD_some, Option.getD_none]
      ring
    · intro b hb _
      rw [hA] at hb
      injection hb with h2
      subst h2
      exact ⟨hd, hc⟩
    · intro b hb hbpos
      rw [hA] at hb
      injection hb with h2
      subst h2
      exact absurd h (not_lt.mpr (le_of_lt hbpos))
    · intro hor
      rcases hor with h0 | h0 <;> rw [hA] at h0
      · exact Option.noConfusion h0
      · injection h0 with h2
        rw [h2] at h
        exact absurd h (lt_irrefl 0)
  · subst h
    rw [if_neg (lt_irrefl 0), if_neg (lt_irrefl 0)] at hdc
    have hd : t.debit = none := congrArg Prod.fst hdc
    have hc : t.credit = none := congrArg Prod.snd hdc
    refine ⟨?_, ?_, ?_, ?_⟩
    · rw [hA, hd, hc]
      simp
    · intro b hb hbneg
      rw [hA] at hb
      injection hb with h2
      subst h2
      exact absurd hbneg (lt_irrefl 0)
    · intro b hb hbpos
      rw [hA] at hb
      injection hb with h2
      subst h2
      exact absurd hbpos (lt_irrefl 0)
    · intro _
      exact ⟨hd, hc⟩
  · rw [if_neg (not_lt.mpr (le_of_lt h)), if_pos h] at hdc
    have hd : t.debit = none := congrArg Prod.fst hdc
    have hc : t.credit = some a := congrArg Prod.snd hdc
    refine ⟨?_, ?_, ?_, ?_⟩
    · rw [hA, hd, hc]
      simp
    · intro b hb hbneg
      rw [hA] at hb
      injection hb with h2
      subst h2
      exact absurd h (not_lt.mpr (le_of_lt hbneg))
    · intro b hb _
      rw [hA] at hb
      injection hb with h2
      subst h2
      exact ⟨hc, hd⟩
    · intro hor
      rcases hor with h0 | h0 <;> rw [hA] at h0
      · exact Option.noConfusion h0
      · injection h0 with h2
        rw [h2] at h
        exact absurd h (lt_irrefl 0)

theorem amountSignOk_none (t : Txn) (hA : t.amount = none)
    (hD : t.debit = none) (hC : t.credit = none) : amountSignOk t := by
  refine ⟨?_, ?_, ?_, ?_⟩
  · rw [hA, hD, hC]
    simp
  · intro b hb _
    rw [hA] at hb
    exact Option.noConfusion hb
  · intro b hb _
    rw [hA] at hb
    exact Option.noConfusion hb
  · intro _
    exact ⟨hD, hC⟩

theorem parseTxnStep_cases (did aid : Option String) (acc : List Txn)
    (row : NRow) :
    parseTxnStep did aid acc row = acc ∨
    ∃ u, parseTxnStep did aid acc row = acc ++ [u] ∧ amountSignOk u := by
  unfold parseTxnStep
  cases hA : row.amount with
  | some a =>
    simp only [hA]
    split
    · exact Or.inl rfl
    · exact Or.inr ⟨_, rfl, amountSignOk_some a _ rfl rfl⟩
  | none =>
    cases hD : row.debit with
    | some d =>
      simp only [hA, hD]
      split
      · exact Or.inl rfl
      · exact Or.inr ⟨_, rfl, amountSignOk_some (0 - d) _ rfl rfl⟩
    | none =>
      cases hC : row.credit with
      | some c =>
        simp only [hA, hD, hC]
        split
        · exact Or.inl rfl
        · exact Or.inr ⟨_, rfl, amountSignOk_some c _ rfl rfl⟩
      | none =>
        simp only [hA, hD, hC]
        split
        · exact Or.inl rfl
        · exact Or.inr ⟨_, rfl, amountSignOk_none _ rfl rfl rfl⟩

theorem parseTransactions_foldl_ok (did aid : Option String) :
    ∀ (rows : List NRow) (acc : List Txn),
      (∀ u ∈ acc, amountSignOk u) →
      ∀ t ∈ rows.foldl (parseTxnStep did aid) acc, amountSignOk t := by
  intro rows
  induction rows with
  | nil => intro acc hacc t ht; exact hacc t ht
  | cons r rs ih =>
    intro acc hacc t ht
    rw [List.foldl_cons] at ht
    refine ih (parseTxnStep did aid acc r) ?_ t ht
    intro u hu
    rcases parseTxnStep_cases did aid acc r with he | ⟨v, he, hv⟩
    · rw [he] at hu
      exact hacc u hu
    · rw [he] at hu
      rcases List.mem_append.mp hu with h | h
      · exact hacc u h
      · rw [List.mem_singleton] at h
        subst h
        exact hv

theorem lookup_isSome_iff (k : String) (seen : List (String × String)) :
    (seen.lookup k).isSome = true ↔ k ∈ seen.map Prod.fst := by
  induction seen with
  | nil => simp [List.lookup]
  | cons p rest ih =>
    rcases p with ⟨a, b⟩
    simp only [List.lookup, List.map_cons, List.mem_cons]
    by_cases h : k = a
    · subst h
      simp
    · have hb : (k == a) = false := beq_false_of_ne h
      simp [hb, ih, h]

theorem dedupLoop_flag (l : List Txn) : ∀ (seen : List (String × String)) (i : Nat),
    i < l.length →
    (((dedupLoop seen l).getD i (defTxn, false)).2 = true ↔
      (dupKey (l.getD i defTxn) ∈ seen.map Prod.fst ∨
       ∃ j, j < i ∧ dupKey (l.getD j defTxn) = dupKey (l.getD i defTxn))) := by
  induction l with
  | nil => intro seen i hi; exact absurd hi (Nat.not_lt_zero i)
  | cons t ts ih =>
    intro seen i hi
    simp only [dedupLoop]
    cases hlk : seen.lookup (dupKey t) with
    | some fid =>
      simp only [hlk]
      have hk : dupKey t ∈ seen.map Prod.fst := by
        rw [← lookup_isSome_iff, hlk]
        rfl
      cases i with
      | zero =>
        exact ⟨fun _ => Or.inl hk, fun _ => rfl⟩
      | succ n =>
        simp only [List.getD_cons_succ]
        have hn : n < ts.length := Nat.lt_of_succ_lt_succ hi
        rw [ih seen n hn]
        constructor
        · rintro (hm | ⟨j, hj, he⟩)
          · exact Or.inl hm
          · exact Or.inr ⟨j + 1, Nat.succ_lt_succ hj, he⟩
        · rintro (hm | ⟨j, hj, he⟩)
          · exact Or.inl hm
          · cases j with
            | zero => exact Or.inl (he ▸ hk)
            | succ m => exact Or.inr ⟨m, Nat.lt_of_succ_lt_succ hj, he⟩
    | none =>
      simp only [hlk]
      have hk : dupKey t ∉ seen.map Prod.fst := by
        rw [← lookup_isSome_iff, hlk]
        simp
      cases i with
      | zero =>
        constructor
        · intro hfalse
          exact Bool.noConfusion hfalse
        · rintro (hm | ⟨j, hj, _⟩)
          · exact absurd hm hk
          · exact absurd hj (Nat.not_lt_zero j)
      | succ n =>
        simp only [List.getD_cons_succ]
        have hn : n < ts.length := Nat.lt_of_succ_lt_succ hi
        rw [ih ((dupKey t, t.id) :: seen) n hn]
        simp only [List.map_cons, List.mem_cons]
        constructor
        · rintro ((he | hm) | ⟨j, hj, he⟩)
          · exact Or.inr ⟨0, Nat.succ_pos n, he.symm⟩
          · exact Or.inl hm
          · exact Or.inr ⟨j + 1, Nat.succ_lt_succ hj, he⟩
        · rintro (hm | ⟨j, hj, he⟩)
          · exact Or.inl (Or.inr hm)
          · cases j with
            | zero => exact Or.inl (Or.inl he.symm)
            | succ m => exact Or.inr ⟨m, Nat.lt_of_succ_lt_succ hj, he⟩

theorem dedupLoop_entry (l : List Txn) : ∀ (seen : List (String × String)) (i : Nat),
    i < l.length →
    (((dedupLoop seen l).getD i (defTxn, false)).2 = false →
      ((dedupLoop seen l).getD i (defTxn, false)).1 = l.getD i defTxn) ∧
    (((dedupLoop seen l).getD i (defTxn, false)).2 = true →
      ∃ fid, ((dedupLoop seen l).getD i (defTxn, false)).1 =
        { l.getD i defTxn with duplicate_of := some fid }) := by
  induction l with
  | nil => intro seen i hi; exact absurd hi (Nat.not_lt_zero i)
  | cons t ts ih =>
    intro seen i hi
    simp only [dedupLoop]
    cases hlk : seen.lookup (dupKey t) with
    | some fid =>
      simp only [hlk]
      cases i with
      | zero =>
        exact ⟨fun h => Bool.noConfusion h, fun _ => ⟨fid, rfl⟩⟩
      | succ n =>
        exact ih seen n (Nat.lt_of_succ_lt_succ hi)
    | none =>
      simp only [hlk]
      cases i with
      | zero =>
        exact ⟨fun _ => rfl, fun h => Bool.noConfusion h⟩
      | succ n =>
        exact ih ((dupKey t, t.id) :: seen) n (Nat.lt_of_succ_lt_succ hi)

theorem normalizeAmountTxn_duplicate_of (t : Txn) :
    (normalizeAmountTxn t).duplicate_of = t.duplicate_of := by
  rcases hA : t.amount with _ | a <;> rcases hD : t.debit with _ | d <;>
    rcases hC : t.credit with _ | c <;> simp [normalizeAmountTxn, hA, hD, hC]

theorem backfillLoop_duplicate_of : ∀ (l : List Txn) (running : ℚ) (t : Txn),
    t ∈ (backfillLoop running l).1 → ∃ u ∈ l, t.duplicate_of = u.duplicate_of := by
  intro l
  induction l with
  | nil => intro running t ht; simp [backfillLoop] at ht
  | cons x xs ih =>
    intro running t ht
    simp only [backfillLoop] at ht
    by_cases hb : x.balance.isSome
    · rw [if_pos hb] at ht
      rcases List.mem_cons.mp ht with he | hm
      · exact ⟨x, List.mem_cons_self x xs, by rw [he]⟩
      · rcases ih _ t hm with ⟨u, hu, he⟩
        exact ⟨u, List.mem_cons_of_mem x hu, he⟩
    · rw [if_neg hb] at ht
      rcases List.mem_cons.mp ht with he | hm
      · exact ⟨x, List.mem_cons_self x xs, by rw [he]⟩
      · rcases ih _ t hm with ⟨u, hu, he⟩
        exact ⟨u, List.mem_cons_of_mem x hu, he⟩

theorem sortedTxns_duplicate_of (txns : List Txn) (t : Txn)
    (ht : t ∈ sortedTxns txns) : ∃ u ∈ txns, t.duplicate_of = u.duplicate_of := by
  have hmem : t ∈ txns.map normalizeAmountTxn := ((sSort_perm _ _).mem_iff).mp ht
  rcases List.mem_map.mp hmem with ⟨u, hu, he⟩
  exact ⟨u, hu, by rw [← he, normalizeAmountTxn_duplicate_of]⟩

theorem backedOf_duplicate_of_none (txns : List Txn) (ob : Option ℚ)
    (h : ∀ t ∈ txns, t.duplicate_of = none) :
    ∀ t ∈ (backedOf txns ob).1, t.duplicate_of = none := by
  intro t ht
  rcases ho : openingUsedOf txns ob with _ | o
  · simp only [backedOf, ho] at ht
    rcases sortedTxns_duplicate_of txns t ht with ⟨u, hu, he⟩
    rw [he]
    exact h u hu
  · simp only [backedOf, ho] at ht
    rcases backfillLoop_duplicate_of _ _ t ht with ⟨v, hv, he⟩
    rcases sortedTxns_duplicate_of txns v hv with ⟨u, hu, he2⟩
    rw [he, he2]
    exact h u hu

theorem tierBPages_stop_ne_nil (e : Nat) (ch : Option String) :
    ∀ (l : List (Nat × List Token)) (acc : List NRow),
      (tierBPages e ch l acc).2 = true → (tierBPages e ch l acc).1 ≠ [] := by
  intro l
  induction l with
  | nil => intro acc h; exact absurd h (by simp [tierBPages])
  | cons p rest ih =>
    intro acc h
    rcases p with ⟨pi, words⟩
    simp only [tierBPages] at h ⊢
    by_cases hc : e > 0 ∧ (tierBPage ch pi words acc).length ≥ e
    · rw [if_pos hc] at h ⊢
      exact List.ne_nil_of_length_pos (Nat.lt_of_lt_of_le hc.1 hc.2)
    · rw [if_neg hc] at h ⊢
      exact ih _ h

theorem textLineRow_sourceTier (ch : Option String) (pi seq : Nat) (line : String)
    (row : NRow) (h : textLineRow ch pi seq line = some row) :
    row.sourceTier = "text" := by
  cases hm : reSearch lineRE line with
  | none => simp [textLineRow, hm] at h
  | some m =>
    simp only [textLineRow, hm] at h
    have h2 := Option.some.inj h
    subst h2
    rfl

theorem tierCLines_sourceTier (e : Nat) (ch : Option String) (pi : Nat) :
    ∀ (lines : List String) (acc : List NRow × Nat),
      (∀ r ∈ acc.1, r.sourceTier = "text") →
      ∀ r ∈ (tierCLines e ch pi lines acc).1, r.sourceTier = "text" := by
  intro lines
  induction lines with
  | nil => intro acc hacc r hr; exact hacc r hr
  | cons rawLine rest ih =>
    intro acc hacc r hr
    simp only [tierCLines] at hr
    by_cases h0 : pyStrip rawLine = ""
    · rw [if_pos h0] at hr
      exact ih acc hacc r hr
    · rw [if_neg h0] at hr
      cases htl : textLineRow ch pi acc.2 (pyStrip rawLine) with
      | none =>
        simp only [htl] at hr
        exact ih acc hacc r hr
      | some row =>
        simp only [htl] at hr
        have hacc2 : ∀ x ∈ (acc.1 ++ [row], acc.2 + 1).1, x.sourceTier = "text" := by
          intro x hx
          rcases List.mem_append.mp hx with hxa | hxr
          · exact hacc x hxa
          · rw [List.mem_singleton] at hxr
            subst hxr
            exact textLineRow_sourceTier ch pi acc.2 (pyStrip rawLine) x htl
        by_cases hc : e > 0 ∧ (acc.1 ++ [row]).length ≥ e
        · rw [if_pos hc] at hr
          exact hacc2 r hr
        · rw [if_neg hc] at hr
          exact ih _ hacc2 r hr

theorem tierCPages_sourceTier (e : Nat) (ch : Option String) :
    ∀ (pages : List (Nat × String)) (acc : List NRow),
      (∀ r ∈ acc, r.sourceTier = "text") →
      ∀ r ∈ tierCPages e ch pages acc, r.sourceTier = "text" := by
  intro pages
  induction pages with
  | nil => intro acc hacc r hr; exact hacc r hr
  | cons p rest ih =>
    intro acc hacc r hr
    rcases p with ⟨pi, text⟩
    simp only [tierCPages] at hr
    have hlines := tierCLines_sourceTier e ch pi (pySplitLines text) (acc, 0) hacc
    by_cases hc : (tierCLines e ch pi (pySplitLines text) (acc, 0)).2.2 = true
    · rw [if_pos hc] at hr
      exact hlines r hr
    · rw [if_neg hc] at hr
      exact ih _ hlines r hr

theorem digit_not_space (c : Char) (h : c.isDigit = true) : pyIsSpace c = false := by
  cases hc : pyIsSpace c with
  | false => rfl
  | true =>
    exfalso
    simp only [pyIsSpace, Bool.or_eq_true, decide_eq_true_eq] at hc
    rcases hc with ((((h1 | h1) | h1) | h1) | h1) | h1 <;> subst h1 <;>
      exact absurd h (by decide)

theorem sha1Bytes_length (msg : List Nat) : (sha1Bytes msg).length = 20 := by
  simp [sha1Bytes, wordBytesBE]

theorem hexPairs_length : ∀ (l : List Nat),
    ((l.map (fun b => [hexNib (b / 16), hexNib (b % 16)])).flatten).length =
      2 * l.length := by
  intro l
  induction l with
  | nil => rfl
  | cons b bs ih =>
    simp only [List.map_cons, List.flatten_cons, List.length_append, ih,
      List.length_cons, List.length_nil]
    omega

theorem sha1Hex_length (s : String) : (sha1Hex s).data.length = 40 := by
  show ((sha1Bytes (utf8Bytes s)).map
    (fun b => [hexNib (b / 16), hexNib (b % 16)])).flatten.length = 40
  rw [hexPairs_length, sha1Bytes_length]

theorem deterministicToken_digits (d : String)
    (hd : ∀ c ∈ d.data, c.isDigit) (hlen : 4 ≤ d.data.length) :
    deterministicToken "ACCT" d 4 =
      "<ACCT:" ++ String.mk ((sha1Hex d).data.take 10) ++ ":" ++
        String.mk (d.data.drop (d.data.length - 4)) ++ ">" := by
  obtain ⟨l⟩ := d
  simp only [String.data] at hd hlen
  have hnosp : l.filter (fun c => (decide ¬ pyIsSpace c = true)) = l := by
    apply List.filter_eq_self.mpr
    intro c hc
    simp [digit_not_space c (hd c hc)]
  have hdig : l.filter Char.isDigit = l := by
    apply List.filter_eq_self.mpr
    intro c hc
    exact hd c hc
  have hdrop : (l.drop (l.length - 4)).length = 4 := by
    rw [List.length_drop]
    omega
  have htail : String.mk (l.drop (l.length - 4)) ≠ "" := by
    intro he
    have hdata := congrArg String.data he
    simp only [String.data] at hdata
    rw [hdata] at hdrop
    exact absurd hdrop.symm (by decide)
  simp only [deterministicToken, String.data, hnosp, hdig]
  rw [if_pos (by decide : (4 : Nat) > 0), if_pos htail]
  rfl

theorem frameEq_refl (a : Txn) : frameEq a a :=
  ⟨rfl, rfl, rfl, rfl, rfl, rfl, rfl, rfl, rfl, rfl⟩

theorem frameEq_trans {a b c : Txn} (h1 : frameEq a b) (h2 : frameEq b c) :
    frameEq a c := by
  obtain ⟨e1, e2, e3, e4, e5, e6, e7, e8, e9, e10⟩ := h1
  obtain ⟨f1, f2, f3, f4, f5, f6, f7, f8, f9, f10⟩ := h2
  exact ⟨e1.trans f1, e2.trans f2, e3.trans f3, e4.trans f4, e5.trans f5,
    e6.trans f6, e7.trans f7, e8.trans f8, e9.trans f9, e10.trans f10⟩

theorem normalizeAmountTxn_frame (u : Txn) :
    frameEq (normalizeAmountTxn u) u ∧ (normalizeAmountTxn u).balance = u.balance := by
  rcases hA : u.amount with _ | a <;> rcases hD : u.debit with _ | d <;>
    rcases hC : u.credit with _ | c <;>
    simp [normalizeAmountTxn, hA, hD, hC, frameEq]

theorem sortedTxns_mem (txns : List Txn) (t : Txn) (ht : t ∈ sortedTxns txns) :
    ∃ u ∈ txns, t = normalizeAmountTxn u := by
  have hmem : t ∈ txns.map normalizeAmountTxn := ((sSort_perm _ _).mem_iff).mp ht
  rcases List.mem_map.mp hmem with ⟨u, hu, he⟩
  exact ⟨u, hu, he.symm⟩

theorem backfillLoop_mem : ∀ (l : List Txn) (running : ℚ) (t : Txn),
    t ∈ (backfillLoop running l).1 →
    ∃ u ∈ l, t = u ∨
      (u.balance.isSome = false ∧ ∃ b, t = { u with balance := some b }) := by
  intro l
  induction l with
  | nil => intro running t ht; simp [backfillLoop] at ht
  | cons x xs ih =>
    intro running t ht
    simp only [backfillLoop] at ht
    by_cases hb : x.balance.isSome = true
    · rw [if_pos hb] at ht
      rcases List.mem_cons.mp ht with he | hm
      · exact ⟨x, List.mem_cons_self x xs, Or.inl he⟩
      · rcases ih _ t hm with ⟨u, hu, hcase⟩
        exact ⟨u, List.mem_cons_of_mem x hu, hcase⟩
    · rw [if_neg hb] at ht
      have hbf : x.balance.isSome = false := by
        cases hbb : x.balance.isSome with
        | false => rfl
        | true => exact absurd hbb hb
      rcases List.mem_cons.mp ht with he | hm
      · exact ⟨x, List.mem_cons_self x xs, Or.inr ⟨hbf, _, he⟩⟩
      · rcases ih _ t hm with ⟨u, hu, hcase⟩
        exact ⟨u, List.mem_cons_of_mem x hu, hcase⟩

theorem backedOf_mem (txns : List Txn) (ob : Option ℚ) (t : Txn)
    (ht : t ∈ (backedOf txns ob).1) :
    ∃ u ∈ sortedTxns txns, t = u ∨
      (u.balance.isSome = false ∧ ∃ b, t = { u with balance := some b }) := by
  rcases ho : openingUsedOf txns ob with _ | o
  · simp only [backedOf, ho] at ht
    exact ⟨t, ht, Or.inl rfl⟩
  · simp only [backedOf, ho] at ht
    exact backfillLoop_mem _ o t ht

theorem dedupLoop_mem : ∀ (l : List Txn) (seen : List (String × String))
    (p : Txn × Bool), p ∈ dedupLoop seen l →
    ∃ u ∈ l, p.1 = u ∨ ∃ fid, p.1 = { u with duplicate_of := some fid } := by
  intro l
  induction l with
  | nil => intro seen p hp; simp [dedupLoop] at hp
  | cons t ts ih =>
    intro seen p hp
    simp only [dedupLoop] at hp
    cases hlk : seen.lookup (dupKey t) with
    | some fid =>
      simp only [hlk] at hp
      rcases List.mem_cons.mp hp with he | hm
      · exact ⟨t, List.mem_cons_self t ts, Or.inr ⟨fid, by rw [he]⟩⟩
      · rcases ih seen p hm with ⟨u, hu, hc⟩
        exact ⟨u, List.mem_cons_of_mem t hu, hc⟩
    | none =>
      simp only [hlk] at hp
      rcases List.mem_cons.mp hp with he | hm
      · exact ⟨t, List.mem_cons_self t ts, Or.inl (by rw [he])⟩
      · rcases ih _ p hm with ⟨u, hu, hc⟩
        exact ⟨u, List.mem_cons_of_mem t hu, hc⟩

theorem validateStatement_out_mem (txns : List Txn) (ob cb : Option ℚ)
    (dd : Bool) (t : Txn) (ht : t ∈ (validateStatement txns ob cb dd).1) :
    ∃ p ∈ pairsOf txns ob, t = p.1 := by
  have ht2 : t ∈ (if dd = true
      then ((pairsOf txns ob).filter (fun p => ¬ p.2)).map (fun p => p.1)
      else (pairsOf txns ob).map (fun p => p.1)) := ht
  by_cases hdd : dd = true
  · rw [if_pos hdd] at ht2
    rcases List.mem_map.mp ht2 with ⟨p, hp, he⟩
    exact ⟨p, List.mem_of_mem_filter hp, he.symm⟩
  · rw [if_neg hdd] at ht2
    rcases List.mem_map.mp ht2 with ⟨p, hp, he⟩
    exact ⟨p, hp, he.symm⟩

theorem backfillLoop_balance : ∀ (l : List Txn) (running : ℚ),
    (backfillLoop running l).1.length = l.length ∧
    (∀ j, j < l.length →
      ((backfillLoop running l).1.getD j defTxn).balance =
        (if (l.getD j defTxn).balance.isSome = true then (l.getD j defTxn).balance
         else some (running +
           ((l.take (j+1)).map (fun t => t.amount.getD 0)).sum))) := by
  intro l
  induction l with
  | nil =>
    intro running
    exact ⟨rfl, fun j hj => absurd hj (Nat.not_lt_zero j)⟩
  | cons x xs ih =>
    intro running
    have hr2 : (match x.amount with | some a => running + a | none => running) =
        running + x.amount.getD 0 := by
      cases x.amount <;> simp
    by_cases hb : x.balance.isSome = true
    · have hlen := (ih (match x.amount with | some a => running + a | none => running)).1
      constructor
      · simp only [backfillLoop]
        rw [if_pos hb]
        simp [hlen]
      · intro j hj
        cases j with
        | zero =>
          simp only [backfillLoop]
          rw [if_pos hb]
          simp only [List.getD_cons_zero]
          rw [if_pos hb]
        | succ n =>
          have hn : n < xs.length := Nat.lt_of_succ_lt_succ hj
          have hrec := (ih (match x.amount with
            | some a => running + a | none => running)).2 n hn
          simp only [backfillLoop]
          rw [if_pos hb]
          simp only [List.getD_cons_succ]
          rw [hrec, hr2]
          by_cases hbn : (xs.getD n defTxn).balance.isSome = true
          · rw [if_pos hbn, if_pos hbn]
          · rw [if_neg hbn, if_neg hbn]
            simp only [List.take_succ_cons, List.map_cons, List.sum_cons]
            rw [add_assoc]
    · have hlen := (ih (match x.amount with | some a => running + a | none => running)).1
      have hbf : x.balance.isSome = false := by
        cases hbb : x.balance.isSome with
        | false => rfl
        | true => exact absurd hbb hb
      constructor
      · simp only [backfillLoop]
        rw [if_neg hb]
        simp [hlen]
      · intro j hj
        cases j with
        | zero =>
          simp only [backfillLoop]
          rw [if_neg hb]
          simp only [List.getD_cons_zero]
          rw [if_neg hb, hr2]
          simp [List.take_succ_cons]
        | succ n =>
          have hn : n < xs.length := Nat.lt_of_succ_lt_succ hj
          have hrec := (ih (match x.amount with
            | some a => running + a | none => running)).2 n hn
          simp only [backfillLoop]
          rw [if_neg hb]
          simp only [List.getD_cons_succ]
          rw [hrec, hr2]
          by_cases hbn : (xs.getD n defTxn).balance.isSome = true
          · rw [if_pos hbn, if_pos hbn]
          · rw [if_neg hbn, if_neg hbn]
            simp only [List.take_succ_cons, List.map_cons, List.sum_cons]
            rw [add_assoc]

theorem listMin_le (t : List ℚ) : ∀ h : ℚ, listMin h t ≤ h := by
  induction t with
  | nil => intro h; exact le_refl h
  | cons a t ih =>
    intro h
    exact le_trans (ih (min h a)) (min_le_left h a)

theorem le_listMax (t : List ℚ) : ∀ h : ℚ, h ≤ listMax h t := by
  induction t with
  | nil => intro h; exact le_refl h
  | cons a t ih =>
    intro h
    exact le_trans (le_max_left h a) (ih (max h a))

theorem bandStep_inv (bands : List (ℚ × ℚ)) (c : List ℚ)
    (hp : List.Pairwise (fun b1 b2 => b1.2 < b2.1) bands)
    (hb : ∀ b ∈ bands, b.1 < b.2) :
    List.Pairwise (fun b1 b2 => b1.2 < b2.1) (bandStep bands c) ∧
    ∀ b ∈ bandStep bands c, b.1 < b.2 := by
  cases c with
  | nil => exact ⟨hp, hb⟩
  | cons h t =>
    simp only [bandStep]
    have hxm : listMin h t - 10 < listMax h t + 10 := by
      have := le_trans (listMin_le t h) (le_listMax t h)
      linarith
    cases hlast : bands.getLast? with
    | none =>
      simp only [hlast]
      constructor
      · exact List.pairwise_singleton _ _
      · intro b hb2
        rw [List.mem_singleton] at hb2
        subst hb2
        exact hxm
    | some prev =>
      simp only [hlast]
      rcases List.eq_nil_or_concat bands with rfl | ⟨bs, lb, rfl⟩
      · exact absurd hlast (by simp)
      · simp only [List.concat_eq_append] at hp hb hlast ⊢
        have hprev : lb = prev := by
          rw [List.getLast?_concat] at hlast
          exact Option.some.inj hlast
        subst hprev
        rw [List.dropLast_concat]
        have hlbin : lb ∈ bs ++ [lb] :=
          List.mem_append_right bs (List.mem_singleton_self lb)
        have hlb12 : lb.1 < lb.2 := hb lb hlbin
        have hbs : ∀ b ∈ bs, b.2 < lb.1 := by
          intro b hbm
          exact (List.pairwise_append.mp hp).2.2 b hbm lb (List.mem_singleton_self lb)
        by_cases hgt : listMin h t - 10 > lb.2
        · rw [if_pos hgt]
          constructor
          · rw [List.pairwise_append]
            refine ⟨hp, List.pairwise_singleton _ _, ?_⟩
            intro a ham b2 hbm2
            rw [List.mem_singleton] at hbm2
            subst hbm2
            rcases List.mem_append.mp ham with haa | hal
            · exact lt_trans (lt_trans (hbs a haa) hlb12) hgt
            · rw [List.mem_singleton] at hal
              subst hal
              exact hgt
          · intro b hbm
            rcases List.mem_append.mp hbm with h1 | h2
            · exact hb b h1
            · rw [List.mem_singleton] at h2
              subst h2
              exact hxm
        · rw [if_neg hgt]
          constructor
          · rw [List.pairwise_append]
            refine ⟨(List.pairwise_append.mp hp).1, List.pairwise_singleton _ _, ?_⟩
            intro a ham b2 hbm2
            rw [List.mem_singleton] at hbm2
            subst hbm2
            exact hbs a ham
          · intro b hbm
            rcases List.mem_append.mp hbm with h1 | h2
            · exact hb b (List.mem_append_left _ h1)
            · rw [List.mem_singleton] at h2
              subst h2
              exact lt_of_lt_of_le hlb12 (le_max_left lb.2 _)

theorem foldl_bandStep_inv : ∀ (cs : List (List ℚ)) (bands : List (ℚ × ℚ)),
    List.Pairwise (fun b1 b2 => b1.2 < b2.1) bands → (∀ b ∈ bands, b.1 < b.2) →
    List.Pairwise (fun b1 b2 => b1.2 < b2.1) (cs.foldl bandStep bands) ∧
    ∀ b ∈ cs.foldl bandStep bands, b.1 < b.2 := by
  intro cs
  induction cs with
  | nil => intro bands hp hb; exact ⟨hp, hb⟩
  | cons c rest ih =>
    intro bands hp hb
    rw [List.foldl_cons]
    have hs := bandStep_inv bands c hp hb
    exact ih _ hs.1 hs.2

theorem getD_set_self {α : Type} (l : List α) (k : Nat) (v d : α)
    (hk : k < l.length) : (l.set k v).getD k d = v := by
  rw [List.getD_eq_getElem?_getD, List.getElem?_set_self hk]
  rfl

theorem getD_set_ne {α : Type} (l : List α) (k j : Nat) (v d : α)
    (hne : k ≠ j) : (l.set k v).getD j d = l.getD j d := by
  rw [List.getD_eq_getElem?_getD, List.getElem?_set_ne hne,
    ← List.getD_eq_getElem?_getD]

theorem getD_map_const : ∀ (bands : List (ℚ × ℚ)) (i : Nat),
    (bands.map (fun _ => ([] : List Token))).getD i [] = [] := by
  intro bands
  induction bands with
  | nil => intro i; cases i <;> rfl
  | cons b bs ih =>
    intro i
    cases i with
    | zero => rfl
    | succ n => exact ih n

theorem assign_foldl (bands : List (ℚ × ℚ)) :
    ∀ (tokens : List Token) (cols : List (List Token)),
    cols.length = bands.length →
    (tokens.foldl (assignStep bands) cols).length = bands.length ∧
    (∀ i, i < bands.length →
      (tokens.foldl (assignStep bands) cols).getD i [] =
        cols.getD i [] ++
          tokens.filter (fun t => firstBandIdx bands (midOf t) = some i)) := by
  intro tokens
  induction tokens with
  | nil =>
    intro cols hlen
    exact ⟨hlen, fun i hi => by simp⟩
  | cons t ts ih =>
    intro cols hlen
    rw [List.foldl_cons]
    cases hf : firstBandIdx bands (midOf t) with
    | none =>
      have hstep : assignStep bands cols t = cols := by
        simp [assignStep, hf]
      rw [hstep]
      rcases ih cols hlen with ⟨hl, hg⟩
      refine ⟨hl, ?_⟩
      intro i hi
      rw [hg i hi]
      congr 1
      rw [List.filter_cons]
      simp [hf]
    | some k =>
      have hk : k < bands.length :=
        (List.findIdx?_eq_some_iff_findIdx_eq.mp hf).1
      have hkc : k < cols.length := by rw [hlen]; exact hk
      have hstep : assignStep bands cols t = cols.set k (cols.getD k [] ++ [t]) := by
        simp [assignStep, hf]
      rw [hstep]
      have hlen2 : (cols.set k (cols.getD k [] ++ [t])).length = bands.length := by
        rw [List.length_set]
        exact hlen
      rcases ih _ hlen2 with ⟨hl, hg⟩
      refine ⟨hl, ?_⟩
      intro i hi
      rw [hg i hi]
      by_cases hik : i = k
      · subst hik
        rw [getD_set_self _ _ _ _ hkc, List.filter_cons]
        simp [hf, List.append_assoc]
      · rw [getD_set_ne _ _ _ _ _ (fun he => hik he.symm), List.filter_cons]
        simp only [hf]
        rw [if_neg (fun hc : decide ((some k : Option Nat) = some i) = true =>
          hik (Option.some.inj (of_decide_eq_true hc)).symm)]

/-! ## Claim theorems -/

set_option maxRecDepth 100000

/-- C2.  In validate_statement, whenever an opening balance is used (supplied
or derived), expected_closing equals opening_used plus the sum of all
transaction amounts (each transaction's amount normalized from debit/credit
when absent); and whenever a closing balance is also used,
balance_check_passed holds exactly when |expected_closing - closing_used| is
at most 0.02. -/
theorem C2_balance_reconciliation (txns : List Txn) (ob cb : Option ℚ) (dd : Bool) :
    (∀ o, (validateStatement txns ob cb dd).2.opening_balance_used = some o →
      (validateStatement txns ob cb dd).2.expected_closing =
        some (o + (validateStatement txns ob cb dd).2.sum_amount)) ∧
    (∀ o c, (validateStatement txns ob cb dd).2.opening_balance_used = some o →
      (validateStatement txns ob cb dd).2.closing_balance_used = some c →
      ((validateStatement txns ob cb dd).2.balance_check_passed = some true ↔
        |o + (validateStatement txns ob cb dd).2.sum_amount - c| ≤ 2 / 100)) ∧
    (validateStatement txns ob cb dd).2.sum_amount =
      ((txns.map normalizeAmountTxn).map (fun t => t.amount.getD 0)).sum := by
  refine ⟨?_, ?_, ?_⟩
  · intro o ho
    simp only [validateStatement] at ho ⊢
    cases hu : openingUsedOf txns ob with
    | none => simp [hu] at ho
    | some o2 =>
      simp [hu] at ho
      subst ho
      cases hc : closingUsedOf txns cb <;> simp [hu, hc]
  · intro o c ho hc
    simp only [validateStatement] at ho hc ⊢
    cases hu : openingUsedOf txns ob with
    | none => simp [hu] at ho
    | some o2 =>
      cases hcu : closingUsedOf txns cb with
      | none => simp [hcu] at hc
      | some c2 =>
        simp [hu, hcu] at ho hc
        subst ho
        subst hc
        simp [hu, hcu, decide_eq_true_eq]
  · simp only [validateStatement]
    exact sortedTxns_sum txns

/-- Witness for C2 at a concrete statement: opening 100, closing 195, amounts
-5 and +100, so the expected closing is 195 and the check passes. -/
theorem C2_balance_reconciliation_witness :
    (validateStatement smallTxns (some 100) (some 195) false).2.expected_closing =
      some (100 + (validateStatement smallTxns (some 100) (some 195) false).2.sum_amount) ∧
    ((validateStatement smallTxns (some 100) (some 195) false).2.balance_check_passed =
        some true ↔
      |(100 : ℚ) + (validateStatement smallTxns (some 100) (some 195) false).2.sum_amount -
        195| ≤ 2 / 100) := by
  have h := C2_balance_reconciliation smallTxns (some 100) (some 195) false
  exact ⟨h.1 100 (by decide), h.2.1 100 195 (by decide) (by decide)⟩

/-- C3 counterexample.  On the concrete one-page one-table input of the
claim, the pipeline emits three transactions, not two: parse_transactions
keeps any row with a truthy normalized description, so the opening-only row
(description "Opening", no numbers) is retained. -/
theorem C3_scenario_counterexample : scenarioRun.transactions.length ≠ 2 := by
  with_unfolding_all decide

/-- C3 as amended.  The concrete scenario yields exactly three transactions —
the opening-only row is retained with a null amount because it has a
description — whose amounts are none, -500.00 and +10000.00 (stated through
num/den so that concrete evaluation never runs the rational-numeral
instances); the balance check passes and the expected closing is 19500.00. -/
theorem C3_scenario : scenarioRun.transactions.length = 3 ∧
    (scenarioRun.transactions.getD 0 defTxn).amount.isSome = false ∧
    ((scenarioRun.transactions.getD 1 defTxn).amount.getD 0).num = Int.negOfNat 500 ∧
    ((scenarioRun.transactions.getD 1 defTxn).amount.getD 0).den = 1 ∧
    (scenarioRun.transactions.getD 1 defTxn).amount.isSome = true ∧
    ((scenarioRun.transactions.getD 2 defTxn).amount.getD 0).num = Int.ofNat 10000 ∧
    ((scenarioRun.transactions.getD 2 defTxn).amount.getD 0).den = 1 ∧
    (scenarioRun.transactions.getD 2 defTxn).amount.isSome = true ∧
    (scenarioRun.transactions.headD defTxn).description = some "Opening" ∧
    scenarioRun.validation.balance_check_passed = some true ∧
    (scenarioRun.validation.expected_closing.getD 0).num = Int.ofNat 19500 ∧
    (scenarioRun.validation.expected_closing.getD 0).den = 1 ∧
    scenarioRun.validation.expected_closing.isSome = true := by
  refine ⟨?_, ?_, ?_, ?_, ?_, ?_, ?_, ?_, ?_, ?_, ?_, ?_, ?_⟩ <;> with_unfolding_all decide

/-- C6 counterexample.  A three-page document under a two-page cap: the
result's pages_count reports the original three pages, not the truncated
two the claim asserts. -/
theorem C6_pages_counterexample :
    threePagePdf.pages.length = 3 ∧ cfgTwoPages.maxPages = 2 ∧
    (extract cfgTwoPages threePagePdf).result.pages_count ≠ 2 := by
  refine ⟨rfl, rfl, ?_⟩
  with_unfolding_all decide

/-- C6 as amended.  When a document has more pages than the configured
maximum, extract processes only the first max_pages pages (every per-page
list has length max_pages), emits the exceeded-limit warning, and the
pages_count recorded in the result is the original page count, not the
truncated one. -/
theorem C6_page_limit (cfg : Config) (content : PdfContent)
    (h : content.pages.length > cfg.maxPages) :
    (extract cfg content).result.page_texts.length = cfg.maxPages ∧
    (extract cfg content).result.page_tables.length = cfg.maxPages ∧
    (extract cfg content).result.page_words.length = cfg.maxPages ∧
    (extract cfg content).warnings = ["pdf_pages_exceed_limit"] ∧
    (extract cfg content).result.pages_count = content.pages.length := by
  simp [extract, h]

/-- Witness for C6 at the three-page document under the two-page cap. -/
theorem C6_page_limit_witness :
    (extract cfgTwoPages threePagePdf).result.page_texts.length =
      cfgTwoPages.maxPages ∧
    (extract cfgTwoPages threePagePdf).result.page_tables.length =
      cfgTwoPages.maxPages ∧
    (extract cfgTwoPages threePagePdf).result.page_words.length =
      cfgTwoPages.maxPages ∧
    (extract cfgTwoPages threePagePdf).warnings = ["pdf_pages_exceed_limit"] ∧
    (extract cfgTwoPages threePagePdf).result.pages_count =
      threePagePdf.pages.length :=
  C6_page_limit cfgTwoPages threePagePdf (by decide)

/-- The document id recorded by extract is the content hash it was given. -/
theorem extract_document_id (cfg : Config) (content : PdfContent) :
    (extract cfg content).result.document_id = content.documentId := rfl

/-- C7 counterexample.  With a collaborator reporting the document as seen,
process_pdf does return the cached result, but its trace shows extraction ran
before the has/get_result check — contradicting the claim that the check
happens before any work is done on the document. -/
theorem C7_cache_counterexample :
    (processPdf {} (some stCache) cachedPdf none none none none false).2 =
      ["extract", "cache_hit"] ∧
    ((processPdf {} (some stCache) cachedPdf none none none none false).2.contains
      "extract") = true ∧
    (processPdf {} (some stCache) cachedPdf none none none none false).1 =
      cachedResult := by
  refine ⟨rfl, rfl, rfl⟩

/-- C7 as amended.  When the persistence collaborator reports has(document_id)
as true and get_result returns a cached result, process_pdf returns that
cached result unchanged and performs no further pipeline work — the trace is
exactly extraction followed by the cache hit, with no fingerprint,
normalization, parsing, validation, masking or persistence — but the
extraction itself has already run before the check. -/
theorem C7_cache_short_circuit (cfg : Config) (st : Storage)
    (content : PdfContent) (fn aid : Option String) (ob cb : Option ℚ)
    (dd : Bool) (r : PipelineResult)
    (hhas : st.hasDoc content.documentId = true)
    (hget : st.getResult content.documentId = some r) :
    processPdf cfg (some st) content fn aid ob cb dd =
      (r, ["extract", "cache_hit"]) := by
  have hdid : (extract cfg content).result.document_id = content.documentId := rfl
  simp only [processPdf, hdid, hhas, hget, if_true]

/-- Witness for C7 at the caching collaborator and one-page document. -/
theorem C7_cache_short_circuit_witness :
    processPdf {} (some stCache) cachedPdf none none none none false =
      (cachedResult, ["extract", "cache_hit"]) :=
  C7_cache_short_circuit {} stCache cachedPdf none none none none false
    cachedResult rfl rfl

/-- C1.  For every transaction emitted by parse_transactions, amount equals
credit minus debit with a missing debit or credit read as zero; a negative
amount puts its magnitude in debit with credit null, a positive amount sits
in credit with debit null, and a zero or missing amount leaves both null —
so exactly one of debit/credit is non-null unless the amount is zero or
missing. -/
theorem C1_amount_sign_invariant (rows : List NRow) (did aid : Option String)
    (t : Txn) (ht : t ∈ parseTransactions rows did aid) :
    t.amount.getD 0 = t.credit.getD 0 - t.debit.getD 0 ∧
    (∀ a, t.amount = some a → a < 0 → t.debit = some (0 - a) ∧ t.credit = none) ∧
    (∀ a, t.amount = some a → 0 < a → t.credit = some a ∧ t.debit = none) ∧
    ((t.amount = none ∨ t.amount = some 0) → t.debit = none ∧ t.credit = none) :=
  parseTransactions_foldl_ok did aid rows []
    (fun u hu => absurd hu (List.not_mem_nil u)) t ht

/-- Witness for C1 at a one-row statement whose row carries a debit of 5. -/
theorem C1_amount_sign_invariant_witness :
    c1Txn ∈ parseTransactions [c1Row] none none ∧
    (c1Txn.amount.getD 0 = c1Txn.credit.getD 0 - c1Txn.debit.getD 0 ∧
     (∀ a, c1Txn.amount = some a → a < 0 →
       c1Txn.debit = some (0 - a) ∧ c1Txn.credit = none) ∧
     (∀ a, c1Txn.amount = some a → 0 < a →
       c1Txn.credit = some a ∧ c1Txn.debit = none) ∧
     ((c1Txn.amount = none ∨ c1Txn.amount = some 0) →
       c1Txn.debit = none ∧ c1Txn.credit = none)) :=
  ⟨by with_unfolding_all decide,
   C1_amount_sign_invariant [c1Row] none none c1Txn
     (by with_unfolding_all decide)⟩

/-- C4.  Over the validator's working list (after sort and backfill): any two
entries with the same duplicate key are flagged — the later one gets
duplicate_of set — while an entry with no earlier equal key is kept unflagged
and unchanged; duplicate_of is set exactly on the flagged entries (given
inputs that enter with duplicate_of null); with drop_duplicates=true the
output keeps exactly the unflagged entries; duplicates_found counts the
flagged entries and duplicates_removed equals that count exactly when
dropping; and the duplicate key depends only on date, description, amount
and currency — never on page_index. -/
theorem C4_duplicate_detection (txns : List Txn) (ob cb : Option ℚ) (dd : Bool)
    (hnd : ∀ t ∈ txns, t.duplicate_of = none) :
    (∀ i j, i < j → j < (backedOf txns ob).1.length →
      dupKey ((backedOf txns ob).1.getD i defTxn) =
        dupKey ((backedOf txns ob).1.getD j defTxn) →
      ((pairsOf txns ob).getD j (defTxn, false)).2 = true) ∧
    (∀ i, i < (backedOf txns ob).1.length →
      (∀ j, j < i → dupKey ((backedOf txns ob).1.getD j defTxn) ≠
        dupKey ((backedOf txns ob).1.getD i defTxn)) →
      ((pairsOf txns ob).getD i (defTxn, false)).2 = false ∧
      ((pairsOf txns ob).getD i (defTxn, false)).1 =
        (backedOf txns ob).1.getD i defTxn) ∧
    (∀ i, i < (backedOf txns ob).1.length →
      ((pairsOf txns ob).getD i (defTxn, false)).1.duplicate_of.isSome =
        ((pairsOf txns ob).getD i (defTxn, false)).2) ∧
    ((validateStatement txns ob cb true).1 =
      ((pairsOf txns ob).filter (fun p => ¬ p.2)).map (fun p => p.1)) ∧
    ((validateStatement txns ob cb dd).2.duplicates_found =
      ((pairsOf txns ob).filter (fun p => p.2)).length) ∧
    ((validateStatement txns ob cb dd).2.duplicates_removed =
      (if dd then ((pairsOf txns ob).filter (fun p => p.2)).length else 0)) ∧
    (∀ t1 t2 : Txn, t1.date = t2.date → t1.description = t2.description →
      t1.amount = t2.amount → t1.currency = t2.currency →
      dupKey t1 = dupKey t2) := by
  simp only [pairsOf]
  refine ⟨?_, ?_, ?_, ?_, ?_, ?_, ?_⟩
  · intro i j hij hj hkey
    exact (dedupLoop_flag (backedOf txns ob).1 [] j hj).mpr
      (Or.inr ⟨i, hij, hkey⟩)
  · intro i hi hno
    have hface :
        ((dedupLoop [] (backedOf txns ob).1).getD i (defTxn, false)).2 = false := by
      cases hf : ((dedupLoop [] (backedOf txns ob).1).getD i (defTxn, false)).2 with
      | false => rfl
      | true =>
        rcases (dedupLoop_flag (backedOf txns ob).1 [] i hi).mp hf with
          hm | ⟨j, hj, he⟩
        · simp only [List.map_nil] at hm
          exact absurd hm (List.not_mem_nil _)
        · exact absurd he (hno j hj)
    exact ⟨hface, (dedupLoop_entry (backedOf txns ob).1 [] i hi).1 hface⟩
  · intro i hi
    cases hf : ((dedupLoop [] (backedOf txns ob).1).getD i (defTxn, false)).2 with
    | false =>
      have he := (dedupLoop_entry (backedOf txns ob).1 [] i hi).1 hf
      rw [he]
      have hmem : (backedOf txns ob).1.getD i defTxn ∈ (backedOf txns ob).1 := by
        rw [List.getD_eq_getElem?_getD, List.getElem?_eq_getElem hi]
        simp only [Option.getD_some]
        exact List.getElem_mem hi
      rw [backedOf_duplicate_of_none txns ob hnd _ hmem]
      rfl
    | true =>
      rcases (dedupLoop_entry (backedOf txns ob).1 [] i hi).2 hf with ⟨fid, he⟩
      rw [he]
      rfl
  · rfl
  · rfl
  · rfl
  · intro t1 t2 h1 h2 h3 h4
    simp only [dupKey, h1, h2, h3, h4]

/-- Witness for C4 at two identical transactions on different pages: the
second is flagged with duplicate_of set, the first is kept unflagged, and
with drop_duplicates=true the output is the unflagged entries. -/
theorem C4_duplicate_detection_witness :
    ((pairsOf c4Txns none).getD 1 (defTxn, false)).2 = true ∧
    ((pairsOf c4Txns none).getD 0 (defTxn, false)).2 = false ∧
    ((pairsOf c4Txns none).getD 0 (defTxn, false)).1 =
      (backedOf c4Txns none).1.getD 0 defTxn ∧
    ((pairsOf c4Txns none).getD 1 (defTxn, false)).1.duplicate_of.isSome =
      ((pairsOf c4Txns none).getD 1 (defTxn, false)).2 ∧
    (validateStatement c4Txns none none true).1 =
      ((pairsOf c4Txns none).filter (fun p => ¬ p.2)).map (fun p => p.1) := by
  have h := C4_duplicate_detection c4Txns none none true (by decide)
  have hb := h.2.1 0 (by with_unfolding_all decide)
    (fun j hj => absurd hj (Nat.not_lt_zero j))
  exact ⟨h.1 0 1 (by decide) (by with_unfolding_all decide)
      (by with_unfolding_all decide),
    hb.1, hb.2, h.2.2.1 1 (by with_unfolding_all decide), h.2.2.2.1⟩

/-- C5.  normalize_rows applies the tiers in strict fallback order: when the
table tier produced any rows the result is exactly those rows; when it
produced none and positioned words exist, the token tier runs and, when it
produced rows, they are the result; the text-line tier runs only when both
earlier tiers produced nothing (or no words exist), its rows all carry
source "text", and when it too yields nothing the result is the empty list
rather than an error. -/
theorem C5_tier_fallback (earlyStop : Nat) (ext : ExtractionResult)
    (ch : Option String) :
    ((tierAPages earlyStop ch ext.page_tables.enum []).1 ≠ [] →
      normalizeRows earlyStop ext ch =
        (tierAPages earlyStop ch ext.page_tables.enum []).1) ∧
    (tierAPages earlyStop ch ext.page_tables.enum [] = ([], false) →
      ext.page_words ≠ [] →
      (tierBPages earlyStop ch ext.page_words.enum []).1 ≠ [] →
      normalizeRows earlyStop ext ch =
        (tierBPages earlyStop ch ext.page_words.enum []).1) ∧
    (tierAPages earlyStop ch ext.page_tables.enum [] = ([], false) →
      ext.page_words ≠ [] →
      (tierBPages earlyStop ch ext.page_words.enum []).1 = [] →
      normalizeRows earlyStop ext ch =
        tierCPages earlyStop ch ext.page_texts.enum []) ∧
    (tierAPages earlyStop ch ext.page_tables.enum [] = ([], false) →
      ext.page_words = [] →
      normalizeRows earlyStop ext ch =
        tierCPages earlyStop ch ext.page_texts.enum []) ∧
    (∀ r ∈ tierCPages earlyStop ch ext.page_texts.enum [],
      r.sourceTier = "text") ∧
    (tierAPages earlyStop ch ext.page_tables.enum [] = ([], false) →
      ext.page_words = [] →
      tierCPages earlyStop ch ext.page_texts.enum [] = [] →
      normalizeRows earlyStop ext ch = []) := by
  refine ⟨?_, ?_, ?_, ?_, ?_, ?_⟩
  · intro hne
    have hie : (tierAPages earlyStop ch ext.page_tables.enum []).1.isEmpty = false := by
      cases hra : (tierAPages earlyStop ch ext.page_tables.enum []).1 with
      | nil => exact absurd hra hne
      | cons x xs => rfl
    cases h2 : (tierAPages earlyStop ch ext.page_tables.enum []).2 with
    | true => simp [normalizeRows, h2]
    | false => simp [normalizeRows, h2, hie]
  · intro hra hwne hbne
    have hwie : ext.page_words.isEmpty = false := by
      cases hw : ext.page_words with
      | nil => exact absurd hw hwne
      | cons x xs => rfl
    have hbie : (tierBPages earlyStop ch ext.page_words.enum []).1.isEmpty = false := by
      cases hb : (tierBPages earlyStop ch ext.page_words.enum []).1 with
      | nil => exact absurd hb hbne
      | cons x xs => rfl
    cases hb2 : (tierBPages earlyStop ch ext.page_words.enum []).2 with
    | true => simp [normalizeRows, hra, hwie, hb2]
    | false => simp [normalizeRows, hra, hwie, hb2, hbie]
  · intro hra hwne hb1
    have hwie : ext.page_words.isEmpty = false := by
      cases hw : ext.page_words with
      | nil => exact absurd hw hwne
      | cons x xs => rfl
    have hb2 : (tierBPages earlyStop ch ext.page_words.enum []).2 = false := by
      cases hb2x : (tierBPages earlyStop ch ext.page_words.enum []).2 with
      | false => rfl
      | true => exact absurd hb1 (tierBPages_stop_ne_nil earlyStop ch _ _ hb2x)
    simp [normalizeRows, hra, hwie, hb2, hb1]
  · intro hra hw
    simp [normalizeRows, hra, hw]
  · exact tierCPages_sourceTier earlyStop ch ext.page_texts.enum []
      (fun r hr => absurd hr (List.not_mem_nil r))
  · intro hra hw hc
    simp [normalizeRows, hra, hw, hc]

/-- Witness for C5 at an extraction with no tables and no words: the rows
come from the text tier, and every text-tier row is tagged "text". -/
theorem C5_tier_fallback_witness :
    normalizeRows 0 c5Ext none = tierCPages 0 none c5Ext.page_texts.enum [] ∧
    (∀ r ∈ tierCPages 0 none c5Ext.page_texts.enum [], r.sourceTier = "text") := by
  have h := C5_tier_fallback 0 c5Ext none
  exact ⟨h.2.2.2.1 rfl rfl, h.2.2.2.2.1⟩

/-- C8 counterexample.  Two distinct 12-digit account numbers whose SHA-1
hex digests share their first 10 characters and whose last four digits agree:
the deterministic tokens — and hence the masked texts — are identical, so
masking two different account numbers does not always yield different
tokens. -/
theorem C8_collision_counterexample :
    ("009805300000" : String) ≠ "010646940000" ∧
    deterministicToken "ACCT" "009805300000" 4 =
      deterministicToken "ACCT" "010646940000" 4 ∧
    deterministicToken "ACCT" "009805300000" 4 = "<ACCT:4dc462e455:0000>" ∧
    maskPiiText true "009805300000" = maskPiiText true "010646940000" := by
  refine ⟨?_, ?_, ?_, ?_⟩ <;> with_unfolding_all decide

/-- C8 as amended.  The token for an all-digit account number is exactly
<ACCT:hash10:last4> — the first ten hex characters of the SHA-1 of the
number and its last four digits — so masking is deterministic (the token is
a function of the matched digits alone) and the last four digits stay
visible; tokens for two numbers are guaranteed distinct only when their last
four digits differ, since the ten-character hash prefix can collide for
distinct numbers. -/
theorem C8_deterministic_token (d1 d2 : String)
    (h1d : ∀ c ∈ d1.data, c.isDigit) (h1len : 4 ≤ d1.data.length)
    (h2d : ∀ c ∈ d2.data, c.isDigit) (h2len : 4 ≤ d2.data.length) :
    deterministicToken "ACCT" d1 4 =
      "<ACCT:" ++ String.mk ((sha1Hex d1).data.take 10) ++ ":" ++
        String.mk (d1.data.drop (d1.data.length - 4)) ++ ">" ∧
    (d1.data.drop (d1.data.length - 4) ≠ d2.data.drop (d2.data.length - 4) →
      deterministicToken "ACCT" d1 4 ≠ deterministicToken "ACCT" d2 4) := by
  refine ⟨deterministicToken_digits d1 h1d h1len, ?_⟩
  intro hne heq
  rw [deterministicToken_digits d1 h1d h1len,
    deterministicToken_digits d2 h2d h2len] at heq
  have hdata := congrArg String.data heq
  simp only [String.data_append, List.append_assoc] at hdata
  have hmid := List.append_cancel_left hdata
  have hl1 : ((sha1Hex d1).data.take 10).length = 10 := by
    rw [List.length_take, sha1Hex_length]
    decide
  have hl2 : ((sha1Hex d2).data.take 10).length = 10 := by
    rw [List.length_take, sha1Hex_length]
    decide
  have hlen : (String.mk ((sha1Hex d1).data.take 10)).data.length =
      (String.mk ((sha1Hex d2).data.take 10)).data.length := by
    show ((sha1Hex d1).data.take 10).length = ((sha1Hex d2).data.take 10).length
    rw [hl1, hl2]
  rcases List.append_inj hmid hlen with ⟨_, hsuf⟩
  have hsuf2 := List.append_cancel_left hsuf
  have ht := List.append_cancel_right hsuf2
  exact hne ht

/-- Witness for C8 at two all-digit numbers with different last four
digits. -/
theorem C8_deterministic_token_witness :
    deterministicToken "ACCT" "12345678" 4 =
      "<ACCT:" ++ String.mk ((sha1Hex "12345678").data.take 10) ++ ":" ++
        String.mk (("12345678" : String).data.drop
          (("12345678" : String).data.length - 4)) ++ ">" ∧
    deterministicToken "ACCT" "12345678" 4 ≠
      deterministicToken "ACCT" "12340000" 4 := by
  have h := C8_deterministic_token "12345678" "12340000" (by decide) (by decide)
    (by decide) (by decide)
  exact ⟨h.1, h.2 (by decide)⟩

/-- C9.  The validator works on copies and backfill is the only
post-construction mutation: every output transaction matches some input on
every field except amount, balance and duplicate_of; its amount is exactly
the input's debit/credit-normalized amount; an input that entered with a
balance keeps that exact balance.  When an opening balance is available the
working list after backfill agrees positionally with the sorted copy — a
row with a balance keeps it, a row without one receives opening plus the
cumulative sum of amounts up to and including that row — and with no
opening balance the backfill stage changes nothing. -/
theorem C9_validator_frame (txns : List Txn) (ob cb : Option ℚ) (dd : Bool) :
    (∀ t ∈ (validateStatement txns ob cb dd).1,
      ∃ tin ∈ txns, frameEq t tin ∧
        t.amount = (normalizeAmountTxn tin).amount ∧
        (tin.balance.isSome = true → t.balance = tin.balance)) ∧
    (∀ o, openingUsedOf txns ob = some o →
      (backedOf txns ob).1.length = (sortedTxns txns).length ∧
      ∀ j, j < (sortedTxns txns).length →
        ((backedOf txns ob).1.getD j defTxn).balance =
          (if ((sortedTxns txns).getD j defTxn).balance.isSome = true
           then ((sortedTxns txns).getD j defTxn).balance
           else some (o + (((sortedTxns txns).take (j+1)).map
             (fun t => t.amount.getD 0)).sum))) ∧
    (openingUsedOf txns ob = none → (backedOf txns ob).1 = sortedTxns txns) := by
  refine ⟨?_, ?_, ?_⟩
  · intro t ht
    rcases validateStatement_out_mem txns ob cb dd t ht with ⟨p, hp, hpt⟩
    rcases dedupLoop_mem (backedOf txns ob).1 [] p hp with ⟨v, hv, hvc⟩
    rcases backedOf_mem txns ob v hv with ⟨u, hu, huc⟩
    rcases sortedTxns_mem txns u hu with ⟨w, hw, hwe⟩
    have hstage1 : frameEq p.1 v ∧ p.1.amount = v.amount ∧
        p.1.balance = v.balance := by
      rcases hvc with he | ⟨fid, he⟩ <;> rw [he]
      · exact ⟨frameEq_refl v, rfl, rfl⟩
      · exact ⟨⟨rfl, rfl, rfl, rfl, rfl, rfl, rfl, rfl, rfl, rfl⟩, rfl, rfl⟩
    have hstage2 : frameEq v u ∧ v.amount = u.amount ∧
        (v.balance = u.balance ∨ u.balance.isSome = false) := by
      rcases huc with he | ⟨hbf, b, he⟩ <;> rw [he]
      · exact ⟨frameEq_refl u, rfl, Or.inl rfl⟩
      · exact ⟨⟨rfl, rfl, rfl, rfl, rfl, rfl, rfl, rfl, rfl, rfl⟩, rfl, Or.inr hbf⟩
    have hstage3 : frameEq u w ∧ u.amount = (normalizeAmountTxn w).amount ∧
        u.balance = w.balance := by
      rw [hwe]
      exact ⟨(normalizeAmountTxn_frame w).1, rfl, (normalizeAmountTxn_frame w).2⟩
    refine ⟨w, hw, ?_, ?_, ?_⟩
    · rw [hpt]
      exact frameEq_trans hstage1.1 (frameEq_trans hstage2.1 hstage3.1)
    · rw [hpt, hstage1.2.1, hstage2.2.1, hstage3.2.1]
    · intro hbw
      rcases hstage2.2.2 with hvb | hbf
      · rw [hpt, hstage1.2.2, hvb, hstage3.2.2]
      · rw [hstage3.2.2, hbw] at hbf
        exact Bool.noConfusion hbf
  · intro o ho
    have hb := backfillLoop_balance (sortedTxns txns) o
    constructor
    · simp only [backedOf, ho]
      exact hb.1
    · intro j hj
      simp only [backedOf, ho]
      exact hb.2 j hj
  · intro ho
    simp only [backedOf, ho]

/-- Witness for C9 at a two-transaction statement with opening balance 100:
the first output transaction matches an input frame-for-frame, and the
backfilled working list has the sorted list's length. -/
theorem C9_validator_frame_witness :
    (∃ tin ∈ smallTxns,
      frameEq ((validateStatement smallTxns (some 100) none false).1.getD 0 defTxn)
        tin ∧
      ((validateStatement smallTxns (some 100) none false).1.getD 0 defTxn).amount =
        (normalizeAmountTxn tin).amount ∧
      (tin.balance.isSome = true →
        ((validateStatement smallTxns (some 100) none false).1.getD 0
          defTxn).balance = tin.balance)) ∧
    (backedOf smallTxns (some 100)).1.length = (sortedTxns smallTxns).length := by
  have h := C9_validator_frame smallTxns (some 100) none false
  exact ⟨h.1 _ (by with_unfolding_all decide), (h.2.1 100 rfl).1⟩

/-- C10.  The column bands inferred from any header token list are pairwise
disjoint and in strictly increasing x order (each band's upper edge lies
strictly below the next band's lower edge, and every band has its lower
edge below its upper edge); assign_tokens_to_columns puts each token in
exactly the column of the first band containing its x-midpoint — so in at
most one column — and a token whose midpoint lies in no band appears in no
column at all. -/
theorem C10_bands_and_assignment (headerTokens : List Token) (maxCols : Nat)
    (tokens : List Token) (bands : List (ℚ × ℚ)) :
    (List.Pairwise (fun b1 b2 => b1.2 < b2.1)
        (inferColumnBands headerTokens maxCols) ∧
      ∀ b ∈ inferColumnBands headerTokens maxCols, b.1 < b.2) ∧
    ((assignTokensToColumns tokens bands).length = bands.length ∧
      ∀ i, i < bands.length →
        (assignTokensToColumns tokens bands).getD i [] =
          tokens.filter (fun t => firstBandIdx bands (midOf t) = some i)) ∧
    (∀ i j, i < bands.length → j < bands.length → i ≠ j → ∀ t : Token,
      t ∈ (assignTokensToColumns tokens bands).getD i [] →
      t ∉ (assignTokensToColumns tokens bands).getD j []) ∧
    (∀ t : Token, firstBandIdx bands (midOf t) = none →
      ∀ i, i < bands.length →
        t ∉ (assignTokensToColumns tokens bands).getD i []) := by
  simp only [assignTokensToColumns]
  have hmapl : (bands.map (fun _ => ([] : List Token))).length = bands.length :=
    List.length_map _ _
  have ha := assign_foldl bands tokens (bands.map (fun _ => [])) hmapl
  refine ⟨?_, ⟨ha.1, ?_⟩, ?_, ?_⟩
  · by_cases he : (sSort (fun a b => a ≤ b) (headerTokens.map midOf)).isEmpty = true
    · simp only [inferColumnBands]
      rw [if_pos he]
      exact ⟨List.Pairwise.nil, fun b hb => absurd hb (List.not_mem_nil b)⟩
    · simp only [inferColumnBands]
      rw [if_neg he]
      exact foldl_bandStep_inv _ [] List.Pairwise.nil
        (fun b hb => absurd hb (List.not_mem_nil b))
  · intro i hi
    rw [ha.2 i hi, getD_map_const, List.nil_append]
  · intro i j hi hj hij t hti htj
    rw [ha.2 i hi, getD_map_const, List.nil_append] at hti
    rw [ha.2 j hj, getD_map_const, List.nil_append] at htj
    have hei := of_decide_eq_true (List.mem_filter.mp hti).2
    have hej := of_decide_eq_true (List.mem_filter.mp htj).2
    rw [hei] at hej
    exact hij (Option.some.inj hej)
  · intro t hnone i hi hti
    rw [ha.2 i hi, getD_map_const, List.nil_append] at hti
    have hsome := of_decide_eq_true (List.mem_filter.mp hti).2
    rw [hnone] at hsome
    exact Option.noConfusion hsome

/-- Witness for C10 at two bands and two tokens: the first column is exactly
the tokens whose midpoint selects band 0, a token in column 0 is absent from
column 1, and the out-of-band token lands in no column. -/
theorem C10_bands_and_assignment_witness :
    (assignTokensToColumns c10Toks c10Bands).getD 0 [] =
      c10Toks.filter (fun t => firstBandIdx c10Bands (midOf t) = some 0) ∧
    (c10Tok ∉ (assignTokensToColumns c10Toks c10Bands).getD 1 []) ∧
    (c10TokOut ∉ (assignTokensToColumns c10Toks c10Bands).getD 0 []) := by
  have h := C10_bands_and_assignment [] 10 c10Toks c10Bands
  exact ⟨h.2.1.2 0 (by decide),
    h.2.2.1 0 1 (by decide) (by decide) (by decide) c10Tok
      (by with_unfolding_all decide),
    h.2.2.2 c10TokOut (by with_unfolding_all decide) 0 (by decide)⟩

end FFPdf
